import Mathlib

/-!
Verification development for the iNaturalist-observation synchronisation
script (`refreshobservations.py`).  The script is shallowly embedded:

* Python/JSON values are modelled by the inductive family `Json` /
  `JsonArr` / `JsonObj` (numbers restricted to integers; floats are
  outside the model).  Python `dict`s appear as insertion-ordered
  association structures (`JsonObj`) with the usual last-write-wins
  update semantics.
* Strings are modelled as `List Char` (Python strings are sequences of
  code points).
* The standard-library functions `json.dumps` / `json.loads` used by the
  script are modelled by an executable serialiser `json_dumps` and an
  executable recursive-descent parser `json_loads` over the same value
  type (`dumps` with its default separators; `loads` with the usual
  whitespace skipping; `\uXXXX` escapes and floats are outside the model).
* The network, the file system and I/O failures are oracles supplied to
  the embedded program (`Oracles`), making every run a pure computation.
-/

/-! ## JSON values -/

mutual

/-- Model of a Python/JSON value as manipulated by the script. -/
inductive Json where
  | null : Json
  | bool : Bool → Json
  | num : Int → Json
  | str : List Char → Json
  | arr : JsonArr → Json
  | obj : JsonObj → Json

/-- A JSON array (a Python list). -/
inductive JsonArr where
  | nil : JsonArr
  | cons : Json → JsonArr → JsonArr

/-- A JSON object (a Python dict): an insertion-ordered key/value
sequence. -/
inductive JsonObj where
  | nil : JsonObj
  | cons : List Char → Json → JsonObj → JsonObj

end

/-- Build an object from a list of pairs (notation convenience; the pairs
are taken as already being in insertion order with distinct keys). -/
def JsonObj.ofList : List (List Char × Json) → JsonObj
  | [] => .nil
  | (k, v) :: rest => .cons k v (JsonObj.ofList rest)

/-- Build an array from a list (notation convenience). -/
def JsonArr.ofList : List Json → JsonArr
  | [] => .nil
  | v :: rest => .cons v (JsonArr.ofList rest)

/-- The keys of an object, in insertion order. -/
def json_keys : JsonObj → List (List Char)
  | .nil => []
  | .cons k _ rest => k :: json_keys rest

/-- Python dict insertion: an existing key keeps its position and gets the
new value, a fresh key is appended. -/
def dict_insert (kvs : JsonObj) (k : List Char) (v : Json) : JsonObj :=
  match kvs with
  | .nil => .cons k v .nil
  | .cons k2 w rest =>
    if k2 = k then .cons k2 v rest else .cons k2 w (dict_insert rest k v)

/-- Python dict lookup (keys are unique in any object built by
`dict_insert`, so first match is the match). -/
def jsonFind (k : List Char) : JsonObj → Option Json
  | .nil => none
  | .cons k2 w rest => if k2 = k then some w else jsonFind k rest

/-- `obs_json[key]` for a parsed JSON value: a lookup that fails (models
the `KeyError`/`TypeError` the Python subscript raises) unless the value
is an object containing the key. -/
def jget (j : Json) (k : List Char) : Option Json :=
  match j with
  | .obj kvs => jsonFind k kvs
  | _ => none

/-! ## Python `==` on JSON values

Python dict equality ignores insertion order: two dicts are equal when
they have the same keys and equal values.  The model compares key-sorted
canonical forms, which on dicts with unique keys (the only ones the
script ever builds or parses) is exactly that relation. -/

/-- Lexicographic strict order on keys, used only to canonicalise. -/
def key_lt : List Char → List Char → Bool
  | [], [] => false
  | [], _ :: _ => true
  | _ :: _, [] => false
  | c :: cs, d :: ds => if c = d then key_lt cs ds else decide (c < d)

/-- Insert an entry into a key-sorted object. -/
def obj_insert_sorted (k : List Char) (v : Json) : JsonObj → JsonObj
  | .nil => .cons k v .nil
  | .cons k2 w r =>
    if key_lt k2 k then .cons k2 w (obj_insert_sorted k v r)
    else .cons k v (.cons k2 w r)

mutual

/-- Key-sort every object in the value, recursively. -/
def canonical : Json → Json
  | .null => .null
  | .bool b => .bool b
  | .num n => .num n
  | .str s => .str s
  | .arr xs => .arr (canonArr xs)
  | .obj kvs => .obj (canonObj kvs)

/-- Canonicalise every element of an array. -/
def canonArr : JsonArr → JsonArr
  | .nil => .nil
  | .cons x xs => .cons (canonical x) (canonArr xs)

/-- Canonicalise an object: insertion sort by key, canonicalising the
values. -/
def canonObj : JsonObj → JsonObj
  | .nil => .nil
  | .cons k v rest => obj_insert_sorted k (canonical v) (canonObj rest)

end

mutual

/-- Aligned structural equality of two values. -/
def jsonBeq : Json → Json → Bool
  | .null, .null => true
  | .bool a, .bool b => a == b
  | .num a, .num b => a == b
  | .str a, .str b => a == b
  | .arr xs, .arr ys => jsonBeqArr xs ys
  | .obj xs, .obj ys => jsonBeqObj xs ys
  | _, _ => false

/-- Aligned structural equality of two arrays. -/
def jsonBeqArr : JsonArr → JsonArr → Bool
  | .nil, .nil => true
  | .cons x xs, .cons y ys => jsonBeq x y && jsonBeqArr xs ys
  | _, _ => false

/-- Aligned structural equality of two objects. -/
def jsonBeqObj : JsonObj → JsonObj → Bool
  | .nil, .nil => true
  | .cons k v r, .cons k2 w r2 => k == k2 && jsonBeq v w && jsonBeqObj r r2
  | _, _ => false

end

/-- Python `==` between two JSON-shaped values: deep structural equality,
with object comparison independent only of key order (Python dict
equality). -/
def jsonEq (a b : Json) : Bool := jsonBeq (canonical a) (canonical b)

/-! ## Decimal integers, `str(int)` and JSON numbers -/

/-- The character for the decimal digit `d`. -/
def digit_char (d : Nat) : Char := Char.ofNat (48 + d)

/-- Decimal digits of `n`, most significant first; the fuel dominates the
number of divisions by ten and is never exhausted when `n < fuel`. -/
def nat_repr_go : Nat → Nat → List Char
  | 0, _ => []
  | fuel + 1, n =>
    if n < 10 then [digit_char n]
    else nat_repr_go fuel (n / 10) ++ [digit_char (n % 10)]

/-- Decimal representation of a natural number. -/
def nat_repr (n : Nat) : List Char := nat_repr_go (n + 1) n

/-- Decimal representation of an integer: Python `str(int)`, which is
also what `json.dumps` prints for an int. -/
def int_repr (n : Int) : List Char :=
  if n < 0 then '-' :: nat_repr (-n).toNat else nat_repr n.toNat

/-- Numeric value of a list of decimal digit characters. -/
def digits_val (ds : List Char) : Nat :=
  ds.foldl (fun a c => 10 * a + (c.toNat - 48)) 0

/-! ## `json.dumps` -/

/-- Escaping of one character inside a JSON string literal, as
`json.dumps` performs it for the characters the model covers. -/
def escape_char (c : Char) : List Char :=
  if c = '"' then ['\\', '"']
  else if c = '\\' then ['\\', '\\']
  else if c = '\n' then ['\\', 'n']
  else if c = '\t' then ['\\', 't']
  else if c = '\r' then ['\\', 'r']
  else [c]

/-- Body of a serialised JSON string literal. -/
def escape_string (s : List Char) : List Char := s.flatMap escape_char

/-- A serialised JSON string literal. -/
def dumps_string (s : List Char) : List Char := '"' :: escape_string s ++ ['"']

mutual

/-- Model of `json.dumps` with its default separators
(`", "` between items, `": "` after keys). -/
def json_dumps : Json → List Char
  | .num n => int_repr n
  | .null => ['n', 'u', 'l', 'l']
  | .str s => dumps_string s
  | .bool true => ['t', 'r', 'u', 'e']
  | .bool false => ['f', 'a', 'l', 's', 'e']
  | .arr .nil => "[]".toList
  | .arr (.cons x xs) => '[' :: json_dumps x ++ dumps_elems xs ++ [']']
  | .obj .nil => "\x7b\x7d".toList
  | .obj (.cons k v kvs) =>
    '\x7b' :: dumps_string k ++ ':' :: ' ' :: json_dumps v
      ++ dumps_members kvs ++ ['\x7d']

/-- `", elem"` for each further array element. -/
def dumps_elems : JsonArr → List Char
  | .nil => []
  | .cons x xs => ',' :: ' ' :: json_dumps x ++ dumps_elems xs

/-- `", \"key\": value"` for each further object member. -/
def dumps_members : JsonObj → List Char
  | .nil => []
  | .cons k v kvs =>
    ',' :: ' ' :: dumps_string k ++ ':' :: ' ' :: json_dumps v
      ++ dumps_members kvs

end

/-! ## `json.loads` -/

/-- The whitespace characters `json.loads` skips between tokens. -/
def json_ws (c : Char) : Bool := c = ' ' || c = '\n' || c = '\t' || c = '\r'

/-- Skip leading JSON whitespace. -/
def skip_ws (cs : List Char) : List Char := cs.dropWhile json_ws

/-- Unescaping of one escape code inside a JSON string literal. -/
def esc_char (c : Char) : Option Char :=
  if c = '"' then some '"'
  else if c = '\\' then some '\\'
  else if c = '/' then some '/'
  else if c = 'n' then some '\n'
  else if c = 't' then some '\t'
  else if c = 'r' then some '\r'
  else if c = 'b' then some (Char.ofNat 8)
  else if c = 'f' then some (Char.ofNat 12)
  else none

/-- Parse the body of a JSON string literal up to its closing quote,
returning the decoded string and the remaining input. -/
def parse_string_body : List Char → Option (List Char × List Char)
  | [] => none
  | '"' :: rest => some ([], rest)
  | '\\' :: e :: rest =>
    match esc_char e with
    | none => none
    | some c =>
      match parse_string_body rest with
      | none => none
      | some (s, r) => some (c :: s, r)
  | c :: rest =>
    match parse_string_body rest with
    | none => none
    | some (s, r) => some (c :: s, r)

/-- Python-dict construction from a parsed member list: pairs are
inserted in order, a repeated key keeping its position and taking the
last value. -/
def build_dict (kvs : List (List Char × Json)) : JsonObj :=
  kvs.foldl (fun d kv => dict_insert d kv.1 kv.2) .nil

mutual

/-- Recursive-descent parser for one JSON value (model of the heart of
`json.loads`), dispatching on the first non-whitespace character.  The
fuel argument dominates the recursion depth; every recursive call
strictly decreases it. -/
def parse_value : Nat → List Char → Option (Json × List Char)
  | 0, _ => none
  | fuel + 1, cs =>
    match skip_ws cs with
    | [] => none
    | c :: rest =>
      if c = 'n' then
        match rest with
        | 'u' :: 'l' :: 'l' :: r => some (.null, r)
        | _ => none
      else if c = 't' then
        match rest with
        | 'r' :: 'u' :: 'e' :: r => some (.bool true, r)
        | _ => none
      else if c = 'f' then
        match rest with
        | 'a' :: 'l' :: 's' :: 'e' :: r => some (.bool false, r)
        | _ => none
      else if c = '"' then
        match parse_string_body rest with
        | none => none
        | some (s, r) => some (.str s, r)
      else if c = '[' then
        match skip_ws rest with
        | [] => none
        | c2 :: r2 =>
          if c2 = ']' then some (.arr .nil, r2)
          else
            match parse_elems fuel (c2 :: r2) with
            | none => none
            | some (vs, r3) => some (.arr vs, r3)
      else if c = '\x7b' then
        match skip_ws rest with
        | [] => none
        | c2 :: r2 =>
          if c2 = '\x7d' then some (.obj .nil, r2)
          else
            match parse_members fuel (c2 :: r2) with
            | none => none
            | some (kvs, r3) => some (.obj (build_dict kvs), r3)
      else if c = '-' then
        let ds := rest.takeWhile Char.isDigit
        if ds = [] then none
        else some (.num (-(Int.ofNat (digits_val ds))), rest.dropWhile Char.isDigit)
      else if c.isDigit then
        some (.num (Int.ofNat (digits_val ((c :: rest).takeWhile Char.isDigit))),
          (c :: rest).dropWhile Char.isDigit)
      else none

/-- Parse a nonempty comma-separated element list followed by `]`. -/
def parse_elems : Nat → List Char → Option (JsonArr × List Char)
  | 0, _ => none
  | fuel + 1, cs =>
    match parse_value fuel cs with
    | none => none
    | some (v, r) =>
      match skip_ws r with
      | ',' :: r2 =>
        match parse_elems fuel r2 with
        | none => none
        | some (vs, r3) => some (.cons v vs, r3)
      | ']' :: r2 => some (.cons v .nil, r2)
      | _ => none

/-- Parse a nonempty comma-separated member list followed by `}`,
returning the raw pairs in source order. -/
def parse_members : Nat → List Char → Option (List (List Char × Json) × List Char)
  | 0, _ => none
  | fuel + 1, cs =>
    match skip_ws cs with
    | '"' :: r =>
      match parse_string_body r with
      | none => none
      | some (k, r1) =>
        match skip_ws r1 with
        | ':' :: r2 =>
          match parse_value fuel r2 with
          | none => none
          | some (v, r3) =>
            match skip_ws r3 with
            | ',' :: r4 =>
              match parse_members fuel r4 with
              | none => none
              | some (kvs, r5) => some ((k, v) :: kvs, r5)
            | '\x7d' :: r4 => some ([(k, v)], r4)
            | _ => none
        | _ => none
    | _ => none

end

/-- Model of `json.loads`: parse one value, allowing surrounding
whitespace and rejecting trailing garbage; `none` models the
`ValueError` the library raises on invalid input. -/
def json_loads (cs : List Char) : Option Json :=
  let cs2 := skip_ws cs
  match parse_value (cs2.length + 1) cs2 with
  | some (v, rest) => if skip_ws rest = [] then some v else none
  | none => none

/-! ## The script's constants and small helpers -/

/-- `CONTENT_LOCATION = "./"`. -/
def CONTENT_LOCATION : List Char := "./".toList

/-- `file_from_id`: `f"{CONTENT_LOCATION}/{idnum}.md"`. -/
def file_from_id (idnum : List Char) : List Char :=
  CONTENT_LOCATION ++ '/' :: idnum ++ ".md".toList

/-- The pattern occurs in `s` at position `i` (`s[i:i+len(p)] == p`). -/
def occurs_at (p s : List Char) (i : Nat) : Bool := (s.drop i).take p.length == p

/-- `findall(p, s)`: all positions of the pattern `p` in `s`, in
increasing order, overlapping occurrences included — exactly the
positions the generator in the script yields by repeated
`s.find(p, i+1)`. -/
def findall (p s : List Char) : List Nat :=
  (List.range (s.length + 1)).filter (occurs_at p s)

/-- The frontmatter delimiter `'---'`. -/
def three_dashes : List Char := "---".toList

/-- The opening content wrapper the script writes after the frontmatter
(with its trailing newline), 15 characters. -/
def open_marker : List Char := "\x7b\x7b< unsafe >\x7d\x7d\n".toList

/-- The closing content wrapper with the newline before and after it,
17 characters; the magic numbers 19 and 17 in the script are the lengths
`4 + 15` and `17` of these fixed pieces. -/
def close_marker : List Char := "\n\x7b\x7b< /unsafe >\x7d\x7d\n".toList

/-- `hugo_markdown_to_json`: locate the first two `'---'` delimiters,
parse the text between them as JSON (yielding `none` unless it is a JSON
object, as the `isinstance(json_contents, dict)` guard demands) and
slice the content with the fixed offsets `front_matter_indices[1] + 19`
and `-17`.  Returns `none` (the Python `None`, which callers unpacking a
pair trip over) when fewer than two delimiters are present.  Python
slices never raise, and neither does any branch of this model. -/
def hugo_markdown_to_json (markdown_contents : List Char) :
    Option (Option Json × List Char) :=
  match findall three_dashes markdown_contents with
  | i0 :: i1 :: _ =>
    let front_matter := (markdown_contents.take i1).drop (i0 + 3)
    let json_contents : Option Json :=
      match json_loads front_matter with
      | some (.obj kvs) => some (.obj kvs)
      | _ => none
    some (json_contents,
      (markdown_contents.take (markdown_contents.length - 17)).drop (i1 + 19))
  | _ => none

/-- `create_markdown_str`: frontmatter between `---` lines, then the
content between the fixed wrapper markers. -/
def create_markdown_str (frontmatter : Json) (content : List Char) : List Char :=
  three_dashes ++ '\n' :: json_dumps frontmatter
    ++ '\n' :: three_dashes ++ '\n' :: open_marker ++ content ++ close_marker

/-- `Path(fname).stem`: the final path component minus its last extension
(a lone leading dot does not count as an extension separator). -/
def path_stem (s : List Char) : List Char :=
  let base := (s.reverse.takeWhile (fun c => c ≠ '/')).reverse
  match base.reverse.dropWhile (fun c => c ≠ '.') with
  | [] => base
  | ['.'] => base
  | '.' :: rest => rest.reverse
  | _ => base

/-! ## The oracle-driven run model -/

/-- The local content directory, keyed by file name exactly as
`file_from_id` builds it and `glob` reports it. -/
abbrev Fs := List (List Char × List Char)

/-- File lookup. -/
def fs_get (fs : Fs) (k : List Char) : Option (List Char) :=
  match fs with
  | [] => none
  | (k2, v) :: rest => if k2 = k then some v else fs_get rest k

/-- File creation/overwrite. -/
def fs_set (fs : Fs) (k v : List Char) : Fs :=
  match fs with
  | [] => [(k, v)]
  | (k2, w) :: rest =>
    if k2 = k then (k2, v) :: rest else (k2, w) :: fs_set rest k v

/-- Does the file name end in `.md` (the `glob` pattern)? -/
def is_md_name (s : List Char) : Bool := s.reverse.take 3 == ".md".toList.reverse

/-- `saved_ids`: the stems of the `*.md` files present at startup. -/
def saved_ids (fs : Fs) : List (List Char) :=
  (fs.filter (fun kv => is_md_name kv.1)).map (fun kv => path_stem kv.1)

/-- One listing-page response from the remote server, as the script
distinguishes them: request failure (`urlopen` raised), a body whose
`json.loads(...)['results']` lookup failed, a `results` that is not a
list, or a list of ids. -/
inductive ListingResp where
  | fail : ListingResp
  | malformed : ListingResp
  | notList : ListingResp
  | ok : List Int → ListingResp

/-- One detail response for a single id: request failure, a body whose
`json.loads(...)['results'][0]` lookup failed, or the detail document. -/
inductive DetailResp where
  | fail : DetailResp
  | malformed : DetailResp
  | ok : Json → DetailResp

/-- Outcome of one `open(..., "w")`/`write` pair: success, failure of the
`open` itself (file untouched), or failure after the successful open has
truncated the file, leaving the first `k` characters of the new text. -/
inductive WriteOutcome where
  | ok : WriteOutcome
  | failOpen : WriteOutcome
  | failMid : Nat → WriteOutcome

/-- The environment of a run: the remote listing endpoint as a function
of the optional `id_below` cursor, the per-id detail endpoint, and the
I/O behaviour of reads and writes by file name. -/
structure Oracles where
  listing : Option Int → ListingResp
  detail : Int → DetailResp
  readOk : List Char → Bool
  write : List Char → WriteOutcome

/-- Result of the listing stage: `fatal` models `sys.exit(-1)`; `done`
carries the collected ids and the request/response trace (cursor used,
page received); `timeout` is fuel exhaustion of the model and carries the
trace of the iterations performed so far (the Python loop, which has no
fuel, simply has not terminated yet). -/
inductive LResult where
  | fatal : LResult
  | timeout : List (Option Int × List Int) → LResult
  | done : List Int → List (Option Int × List Int) → LResult

/-- The loop of `retrieve_obs_ids_from_server`, with the mutable global
`MIN_OBS_ID` threaded as `minId`: the request carries `id_below=minId`
exactly when `minId > 0`; a bad page is fatal; an empty page ends the
loop; otherwise the page is appended and `minId` becomes its last id. -/
def retrieve_obs_ids_aux (server : Option Int → ListingResp) :
    Nat → Int → LResult
  | 0, _ => .timeout []
  | fuel + 1, minId =>
    match server (if minId > 0 then some minId else none) with
    | .fail => .fatal
    | .malformed => .fatal
    | .notList => .fatal
    | .ok [] => .done [] [((if minId > 0 then some minId else none), [])]
    | .ok (x :: xs) =>
      match retrieve_obs_ids_aux server fuel ((x :: xs).getLast (List.cons_ne_nil x xs)) with
      | .fatal => .fatal
      | .timeout tr => .timeout (((if minId > 0 then some minId else none), x :: xs) :: tr)
      | .done ids tr =>
        .done ((x :: xs) ++ ids) (((if minId > 0 then some minId else none), x :: xs) :: tr)

/-- `retrieve_obs_ids_from_server`: the loop starts from the initial
`MIN_OBS_ID = -1`, so the first request carries no cursor. -/
def retrieve_obs_ids (server : Option Int → ListingResp) (fuel : Nat) : LResult :=
  retrieve_obs_ids_aux server fuel (-1)

/-- One reshaped record (`{id, metadata, content}` as built by
`reformat_obs`). -/
structure Reshaped where
  id : List Char
  metadata : Json
  content : List Char

/-- The fifteen `desired_fields` of `reformat_obs`, in source order. -/
def desired_fields : List (List Char) :=
  ["quality_grade", "identifications_most_agree",
   "species_guess", "identifications_most_disagree",
   "captive", "project_ids",
   "community_taxon_id", "geojson",
   "owners_identification_from_vision",
   "identifications_count", "obscured",
   "num_identification_agreements",
   "num_identification_disagreements",
   "place_guess", "photos"].map String.toList

/-- The loop `for key in desired_fields: metadata[key] = obs_json[key]`:
appends each looked-up field in order, failing on the first (indeed any)
missing key. -/
def fields_to_obj (obs_json : Json) : List (List Char) → Option JsonObj
  | [] => some .nil
  | k :: ks =>
    match jget obs_json k with
    | none => none
    | some v =>
      match fields_to_obj obs_json ks with
      | none => none
      | some rest => some (.cons k v rest)

/-- The key `'uri'`. -/
def uri_key : List Char := "uri".toList

/-- The key `'time_observed_at'`. -/
def observed_key : List Char := "time_observed_at".toList

/-- The key `'taxon'`. -/
def taxon_key : List Char := "taxon".toList

/-- The key `'name'`. -/
def name_key : List Char := "name".toList

/-- The key `'preferred_common_name'`. -/
def common_key : List Char := "preferred_common_name".toList

/-- `reformat_obs`: build the metadata dict in insertion order
(`syndication`, `date`, `taxon`, then the fifteen desired fields), with
empty content.  Any failing subscript — a missing key, or indexing a
non-object — returns `none`, modelling the unguarded `KeyError` /
`TypeError` that propagates out of the function. -/
def reformat_obs (obsid : Int) (obs_json : Json) : Option Reshaped :=
  match jget obs_json uri_key with
  | none => none
  | some uri =>
  match jget obs_json observed_key with
  | none => none
  | some date =>
  match jget obs_json taxon_key with
  | none => none
  | some taxon =>
  match jget taxon name_key with
  | none => none
  | some tname =>
  match jget taxon common_key with
  | none => none
  | some tcommon =>
  match fields_to_obj obs_json desired_fields with
  | none => none
  | some rest =>
    some ⟨int_repr obsid,
      .obj (.cons "syndication".toList uri
        (.cons "date".toList date
          (.cons "taxon".toList
            (.obj (.cons "name".toList tname
              (.cons "common_name".toList tcommon .nil))) rest))), []⟩

/-- The per-id loop of `retrieve_data_from_server`: every id is requested
in order; a request failure or malformed body logs and skips the id; a
successful body goes through `reformat_obs`, whose failure is an uncaught
exception that aborts the loop (third component: the crashing id).
Returns the ids actually requested, the reshaped records in order, and
the crash, if any. -/
def fetch_loop (o : Oracles) : List Int → List Int × List Reshaped × Option Int
  | [] => ([], [], none)
  | i :: rest =>
    match o.detail i with
    | .fail =>
      match fetch_loop o rest with
      | (req, rs, c) => (i :: req, rs, c)
    | .malformed =>
      match fetch_loop o rest with
      | (req, rs, c) => (i :: req, rs, c)
    | .ok j =>
      match reformat_obs i j with
      | none => ([i], [], some i)
      | some r =>
        match fetch_loop o rest with
        | (req, rs, c) => (i :: req, r :: rs, c)

/-- `read_hugo_markdown`: open and read the file, feed it to
`hugo_markdown_to_json`; the `except` clause turns an unreadable file or
a delimiter-poor file (whose `hugo_markdown_to_json` result `None` makes
the tuple unpacking inside the `try` raise) into a bare `None`. -/
def read_hugo_markdown (readOk : List Char → Bool) (fs : Fs) (idnum : List Char) :
    Option (Option Json × List Char) :=
  if readOk (file_from_id idnum) then
    match fs_get fs (file_from_id idnum) with
    | some contents => hugo_markdown_to_json contents
    | none => none
  else none

/-- `write_markdown`: `open(file, "w")` then one `write`.  A failing open
is caught with the file untouched; a failure after the open leaves the
truncation/partial prefix behind, also caught.  Either way the function
returns normally. -/
def write_markdown (o : Oracles) (fs : Fs) (id_num : List Char)
    (frontmatter : Json) (contents : List Char) : Fs :=
  match o.write (file_from_id id_num) with
  | .ok => fs_set fs (file_from_id id_num) (create_markdown_str frontmatter contents)
  | .failOpen => fs
  | .failMid k =>
    fs_set fs (file_from_id id_num) ((create_markdown_str frontmatter contents).take k)

/-- The body of the reconciler's `for` loop for one reshaped record.
Second component `true` models the uncaught `TypeError` raised by
unpacking the bare `None` of a failed `read_hugo_markdown` into
`saved_fm, saved_content`. -/
def reconcile_step (o : Oracles) (saved : List (List Char)) (fs : Fs)
    (data : Reshaped) : Fs × Bool :=
  if data.id ∈ saved then
    match read_hugo_markdown o.readOk fs data.id with
    | none => (fs, true)
    | some (none, _) => (fs, false)
    | some (some saved_fm, _) =>
      if jsonEq saved_fm data.metadata then (fs, false)
      else (write_markdown o fs data.id data.metadata data.content, false)
  else (write_markdown o fs data.id data.metadata data.content, false)

/-- The reconciler's `for` loop over all reshaped records, stopping at
the first crash (second component: the id it crashed on). -/
def reconcile_loop (o : Oracles) (saved : List (List Char)) :
    Fs → List Reshaped → Fs × Option (List Char)
  | fs, [] => (fs, none)
  | fs, r :: rest =>
    match reconcile_step o saved fs r with
    | (fs2, true) => (fs2, some r.id)
    | (fs2, false) => reconcile_loop o saved fs2 rest

/-- Why a run ended with a nonzero status. -/
inductive FatalReason where
  | listingFail : FatalReason
  | reformatCrash : Int → FatalReason
  | readCrash : List Char → FatalReason

/-- Observable outcome of a whole run: the detail requests made, the
final state of the content directory, and `exit = none` for status 0 /
`some reason` for a nonzero exit. -/
structure RunTrace where
  requested : List Int
  finalFs : Fs
  exit : Option FatalReason

/-- The whole script: glob the saved ids, list the remote ids (fatal exit
on a bad listing page, before any detail request), fetch and reshape each
id (a reshape failure aborts before any write), then reconcile each
record against the store.  `none` is fuel exhaustion of the listing
loop. -/
def full_run (o : Oracles) (fuel : Nat) (fs0 : Fs) : Option RunTrace :=
  match retrieve_obs_ids o.listing fuel with
  | .timeout _ => none
  | .fatal => some ⟨[], fs0, some .listingFail⟩
  | .done ids _ =>
    match fetch_loop o ids with
    | (req, _, some i) => some ⟨req, fs0, some (.reformatCrash i)⟩
    | (req, rs, none) =>
      match reconcile_loop o (saved_ids fs0) fs0 rs with
      | (fs1, some s) => some ⟨req, fs1, some (.readCrash s)⟩
      | (fs1, none) => some ⟨req, fs1, none⟩

/-! ## Concrete fixtures shared by several scenarios -/

/-- A complete detail document: the four nested required fields plus the
fifteen desired fields. -/
def detail_doc : Json :=
  .obj (.cons "uri".toList (.str "https://inat/obs".toList)
    (.cons "time_observed_at".toList (.str "2020-01-01".toList)
      (.cons "taxon".toList (.obj (.cons "name".toList (.str "Quercus alba".toList)
        (.cons "preferred_common_name".toList (.str "white oak".toList) .nil)))
        (JsonObj.ofList (desired_fields.map (fun k => (k, Json.num 1)))))))

/-- A store holding one well-formed saved record with id `7` and
metadata `{"a": 1}`. -/
def fs_one : Fs :=
  [(file_from_id ['7'],
    create_markdown_str (.obj (.cons "a".toList (.num 1) .nil)) [])]

/-- Oracle fixture where every read works and every write succeeds. -/
def o_ok : Oracles where
  listing := fun _ => .ok []
  detail := fun _ => .ok detail_doc
  readOk := fun _ => true
  write := fun _ => .ok

/-- Oracle whose every listing request fails. -/
def o_bad_listing : Oracles :=
  { o_ok with listing := fun _ => .fail }

/-- Oracle whose listing is the single id `7` and whose file reads all
fail (`open` raises). -/
def o_read_fail : Oracles :=
  { o_ok with
    listing := fun c => match c with | none => .ok [7] | some _ => .ok []
    readOk := fun _ => false }

/-- Oracle whose writes fail after truncating and writing 3 characters. -/
def o_write_fail : Oracles :=
  { o_ok with write := fun _ => .failMid 3 }

/-- Oracle whose writes fail at the `open` itself. -/
def o_open_fail : Oracles :=
  { o_ok with write := fun _ => .failOpen }

/-- All required fields of the fixed field list are present in a detail
document: `uri`, `time_observed_at`, `taxon.name`,
`taxon.preferred_common_name` and the fifteen desired fields. -/
def required_present (dj : Json) : Bool :=
  (jget dj uri_key).isSome &&
  (jget dj observed_key).isSome &&
  (((jget dj taxon_key).map
      (fun t => (jget t name_key).isSome && (jget t common_key).isSome)).getD false) &&
  desired_fields.all (fun k => (jget dj k).isSome)

/-- The eighteen keys `reformat_obs` actually writes, in insertion
order. -/
def metadata_key_list : List (List Char) :=
  "syndication".toList :: "date".toList :: "taxon".toList :: desired_fields

/-- `detail_doc` with its `uri` field removed. -/
def detail_doc_no_uri : Json :=
  .obj (.cons "time_observed_at".toList (.str "2020-01-01".toList)
    (.cons "taxon".toList (.obj (.cons "name".toList (.str "Quercus alba".toList)
      (.cons "preferred_common_name".toList (.str "white oak".toList) .nil)))
      (JsonObj.ofList (desired_fields.map (fun k => (k, Json.num 1))))))

/-- Oracle whose listing is the single id `7` and whose detail document
lacks the required `uri` field. -/
def o_missing_field : Oracles :=
  { o_ok with
    listing := fun c => match c with | none => .ok [7] | some _ => .ok []
    detail := fun _ => .ok detail_doc_no_uri }

/-- Oracle for the single-record scenario: the listing is the single id
`123`, details are `detail_doc`. -/
def o_single : Oracles :=
  { o_ok with
    listing := fun c => match c with | none => .ok [123] | some _ => .ok [] }

/-- The metadata object `reformat_obs 123 detail_doc` builds. -/
def md123 : JsonObj :=
  .cons "syndication".toList (.str "https://inat/obs".toList)
    (.cons "date".toList (.str "2020-01-01".toList)
      (.cons "taxon".toList (.obj (.cons "name".toList (.str "Quercus alba".toList)
        (.cons "common_name".toList (.str "white oak".toList) .nil)))
        (JsonObj.ofList (desired_fields.map (fun k => (k, Json.num 1))))))

/-- The reshaped record for id `123` of `detail_doc`. -/
def r123 : Reshaped := ⟨"123".toList, .obj md123, []⟩

/-- The text between the first two `'---'` delimiters (empty when there
are fewer than two). -/
def front_slice (s : List Char) : List Char :=
  match findall three_dashes s with
  | i0 :: i1 :: _ => (s.take i1).drop (i0 + 3)
  | _ => []

/-- The text parses as a JSON object (`json.loads` succeeds and
`isinstance(..., dict)` holds). -/
def is_json_obj (t : List Char) : Bool :=
  match json_loads t with
  | some (.obj _) => true
  | _ => false

/-- A well-formed markdown document with frontmatter `{"a": 1}` and empty
content. -/
def md_good : List Char :=
  create_markdown_str (.obj (.cons "a".toList (.num 1) .nil)) []

/-- The claim's cursor law on a request/response trace: every request
after the first carries exactly the last id of the previous page as its
`id_below` cursor. -/
def cursor_matches_last : List (Option Int × List Int) → Bool
  | (_, p) :: (c2, p2) :: rest =>
    (c2 == p.getLast?) && cursor_matches_last ((c2, p2) :: rest)
  | _ => true

/-- A server whose first page ends in the id `0` — a legal opaque id
that the script's `MIN_OBS_ID > 0` cursor guard mishandles. -/
def srv_zero : Option Int → ListingResp
  | none => .ok [5, 0]
  | some _ => .ok []

/-- A well-behaved server: one page `[9, 8]` of positive ids, then an
empty page. -/
def srv_two : Option Int → ListingResp
  | none => .ok [9, 8]
  | some _ => .ok []

/-- Oracle whose listing is `[9, 8]` and whose detail request fails for
every id but `9`. -/
def o_skip : Oracles :=
  { o_ok with
    listing := fun c => match c with | none => .ok [9, 8] | some _ => .ok []
    detail := fun i => if i = 9 then .ok detail_doc else .fail }

/-- `cs` does not start with a digit (so a number parse stops exactly at
the boundary). -/
def num_stop (cs : List Char) : Bool :=
  match cs with
  | [] => true
  | c :: _ => !c.isDigit

/-- The key does not occur in the object. -/
def key_not_in (k : List Char) : JsonObj → Bool
  | .nil => true
  | .cons k2 _ rest => !(k2 == k) && key_not_in k rest

/-- All keys of the object are distinct. -/
def keys_nodup : JsonObj → Bool
  | .nil => true
  | .cons k _ rest => key_not_in k rest && keys_nodup rest

/-- No key of the first object occurs in the second. -/
def keys_fresh : JsonObj → JsonObj → Bool
  | .nil, _ => true
  | .cons k _ rest, acc => key_not_in k acc && keys_fresh rest acc

mutual

/-- Every object anywhere in the value has distinct keys — true of every
value a Python dict can hold, and of everything the script builds. -/
def goodJson : Json → Bool
  | .null => true
  | .bool _ => true
  | .num _ => true
  | .str _ => true
  | .arr xs => goodArr xs
  | .obj kvs => keys_nodup kvs && goodMembers kvs

/-- `goodJson` on every array element. -/
def goodArr : JsonArr → Bool
  | .nil => true
  | .cons x xs => goodJson x && goodArr xs

/-- `goodJson` on every member value. -/
def goodMembers : JsonObj → Bool
  | .nil => true
  | .cons _ v rest => goodJson v && goodMembers rest

end

mutual

/-- Fuel sufficient for `parse_value` on the serialised value. -/
def jfuel : Json → Nat
  | .arr xs => 1 + jfuelArr xs
  | .obj kvs => 1 + jfuelObj kvs
  | _ => 1

/-- Fuel sufficient for `parse_elems` on the serialised elements. -/
def jfuelArr : JsonArr → Nat
  | .nil => 0
  | .cons x xs => 1 + jfuel x + jfuelArr xs

/-- Fuel sufficient for `parse_members` on the serialised members. -/
def jfuelObj : JsonObj → Nat
  | .nil => 0
  | .cons _ v rest => 1 + jfuel v + jfuelObj rest

end

/-- Object concatenation. -/
def obj_append : JsonObj → JsonObj → JsonObj
  | .nil, ys => ys
  | .cons k v rest, ys => .cons k v (obj_append rest ys)

/-- The raw member pairs of an object, in order. -/
def objToPairs : JsonObj → List (List Char × Json)
  | .nil => []
  | .cons k v rest => (k, v) :: objToPairs rest

/-- A frontmatter whose serialisation contains `'---'` (inside the string
value), defeating the delimiter search on read-back. -/
def fm_dashes : Json := .obj (.cons "a".toList (.str "---".toList) .nil)

/-- A concrete frontmatter object used by the round-trip witness. -/
def fm_w : JsonObj := .cons "a".toList (.num 1) .nil

/-! # Theorems -/

/-! ## Basic store lemmas -/

theorem fs_get_set_self (fs : Fs) (k v : List Char) :
    fs_get (fs_set fs k v) k = some v := by
  induction fs with
  | nil => simp [fs_set, fs_get]
  | cons kv rest ih =>
    obtain ⟨k2, w⟩ := kv
    by_cases h : k2 = k <;> simp [fs_set, fs_get, h, ih]

theorem fs_get_set_ne (fs : Fs) (k v f : List Char) (h : f ≠ k) :
    fs_get (fs_set fs k v) f = fs_get fs f := by
  have h2 : ¬ (k = f) := fun hk => h hk.symm
  induction fs with
  | nil => simp [fs_set, fs_get, h2]
  | cons kv rest ih =>
    obtain ⟨k2, w⟩ := kv
    by_cases h3 : k2 = k
    · subst h3
      simp [fs_set, fs_get, h2]
    · simp [fs_set, fs_get, h3, ih]

/-! ## C1 — the reconciler's create / skip / overwrite decision -/

/-- C1: for a reshaped record processed by the reconciler: an id absent
from the local store is written unconditionally (creation, given the
write succeeds); an id present whose stored metadata is value-equal
(order-independent deep equality) to the fetched metadata causes no
write; an id present whose stored metadata differs is overwritten with
the new metadata and content. -/
theorem reconcile_decides_create_skip_overwrite (o : Oracles)
    (saved : List (List Char)) (fs : Fs) (data : Reshaped) :
    (data.id ∉ saved → o.write (file_from_id data.id) = .ok →
      reconcile_step o saved fs data
        = (fs_set fs (file_from_id data.id)
            (create_markdown_str data.metadata data.content), false)) ∧
    (data.id ∈ saved → ∀ m c,
      read_hugo_markdown o.readOk fs data.id = some (some m, c) →
      jsonEq m data.metadata = true →
      reconcile_step o saved fs data = (fs, false)) ∧
    (data.id ∈ saved → ∀ m c,
      read_hugo_markdown o.readOk fs data.id = some (some m, c) →
      jsonEq m data.metadata = false →
      o.write (file_from_id data.id) = .ok →
      reconcile_step o saved fs data
        = (fs_set fs (file_from_id data.id)
            (create_markdown_str data.metadata data.content), false)) := by
  refine ⟨fun hni hw => ?_, fun hi m c hr he => ?_, fun hi m c hr hne hw => ?_⟩
  · simp [reconcile_step, hni, write_markdown, hw]
  · simp [reconcile_step, hi, hr, he]
  · simp [reconcile_step, hi, hr, hne, write_markdown, hw]

/-- C1 witness: the three branches exercised on concrete records — a new
id `8` is created, a saved id `7` with unchanged metadata is skipped,
and a saved id `7` with changed metadata is overwritten. -/
theorem reconcile_decides_create_skip_overwrite_witness :
    reconcile_step o_ok (saved_ids fs_one) fs_one
        ⟨['8'], .obj (.cons "a".toList (.num 5) .nil), []⟩
      = (fs_set fs_one (file_from_id ['8'])
          (create_markdown_str (.obj (.cons "a".toList (.num 5) .nil)) []), false) ∧
    reconcile_step o_ok (saved_ids fs_one) fs_one
        ⟨['7'], .obj (.cons "a".toList (.num 1) .nil), []⟩
      = (fs_one, false) ∧
    reconcile_step o_ok (saved_ids fs_one) fs_one
        ⟨['7'], .obj (.cons "a".toList (.num 2) .nil), []⟩
      = (fs_set fs_one (file_from_id ['7'])
          (create_markdown_str (.obj (.cons "a".toList (.num 2) .nil)) []), false) := by
  refine ⟨?_, ?_, ?_⟩
  · exact (reconcile_decides_create_skip_overwrite o_ok (saved_ids fs_one) fs_one
      ⟨['8'], .obj (.cons "a".toList (.num 5) .nil), []⟩).1 (by decide) rfl
  · exact (reconcile_decides_create_skip_overwrite o_ok (saved_ids fs_one) fs_one
      ⟨['7'], .obj (.cons "a".toList (.num 1) .nil), []⟩).2.1 (by decide)
      (.obj (.cons "a".toList (.num 1) .nil)) [] rfl rfl
  · exact (reconcile_decides_create_skip_overwrite o_ok (saved_ids fs_one) fs_one
      ⟨['7'], .obj (.cons "a".toList (.num 2) .nil), []⟩).2.2 (by decide)
      (.obj (.cons "a".toList (.num 1) .nil)) [] rfl rfl rfl

/-! ## C6 — bad listing pages are fatal before any other work -/

/-- C6: a listing-page request failure, or a malformed or non-list
listing-page response, makes the listing loop exit the process with a
nonzero status; when the listing stage is fatal the whole run performs
no per-id detail request and no reconciliation write, and ends with the
nonzero exit. -/
theorem listing_failure_fatal_before_any_work (o : Oracles) (fuel : Nat) (fs0 : Fs) :
    (∀ (minId : Int) (f : Nat),
      (o.listing (if minId > 0 then some minId else none) = .fail ∨
       o.listing (if minId > 0 then some minId else none) = .malformed ∨
       o.listing (if minId > 0 then some minId else none) = .notList) →
      retrieve_obs_ids_aux o.listing (f + 1) minId = .fatal) ∧
    (retrieve_obs_ids o.listing fuel = .fatal →
      full_run o fuel fs0 = some ⟨[], fs0, some .listingFail⟩) := by
  constructor
  · intro minId f hbad
    rcases hbad with h | h | h <;> simp [retrieve_obs_ids_aux, h]
  · intro h
    simp [full_run, h]


/-- C6 witness: with a failing listing endpoint the first page request is
already fatal, and the run makes no detail request, leaves the store
untouched and exits nonzero. -/
theorem listing_failure_fatal_before_any_work_witness :
    retrieve_obs_ids_aux o_bad_listing.listing 1 (-1) = .fatal ∧
    full_run o_bad_listing 5 fs_one = some ⟨[], fs_one, some .listingFail⟩ := by
  have h := listing_failure_fatal_before_any_work o_bad_listing 5 fs_one
  exact ⟨h.1 (-1) 0 (Or.inl rfl), h.2 rfl⟩

/-! ## C4 — an unreadable saved record crashes the run -/


/-- C4: contrary to the claim, when the saved file for an already-present
id cannot be read, the run does not skip and continue: `read_hugo_markdown`
returns a bare `None`, the reconciler's tuple unpacking raises an
uncaught `TypeError`, and the whole run aborts with a nonzero status (the
concrete run below ends in `readCrash` rather than completing with
status 0).  The store is left unchanged only because the crash kills the
loop. -/
theorem unreadable_saved_record_aborts_run :
    full_run o_read_fail 5 fs_one = some ⟨[7], fs_one, some (.readCrash ['7'])⟩ := rfl

/-! ## C8 — write failure is caught but not atomic -/



/-- C8 counterexample: updating saved id `7` with a write that fails
after `open(..., "w")` has truncated the file leaves the file holding the
first three characters (`---`) of the new text — not its previous
contents — while the run continues (no crash).  The claim's "left
exactly in its previous state, no partial file" is false on this code,
which opens the file in truncating mode with no atomic replace. -/
theorem write_failure_leaves_partial_file :
    (reconcile_step o_write_fail (saved_ids fs_one) fs_one
        ⟨['7'], .obj (.cons "a".toList (.num 2) .nil), []⟩).2 = false ∧
    fs_get (reconcile_step o_write_fail (saved_ids fs_one) fs_one
        ⟨['7'], .obj (.cons "a".toList (.num 2) .nil), []⟩).1 (file_from_id ['7'])
      = some three_dashes ∧
    fs_get fs_one (file_from_id ['7']) ≠ some three_dashes := by
  refine ⟨rfl, rfl, by decide⟩

/-- C8 amended: a failed write is caught and the run continues (the
reconciler's only crash source is a failed read, never a write), and a
write that fails at the `open` leaves the file in its previous state;
but the write is not all-or-nothing: a failure after the successful
truncating `open` leaves the file holding a prefix of the new text. -/
theorem write_markdown_failure_modes (o : Oracles) (fs : Fs)
    (idnum : List Char) (fm : Json) (c : List Char) :
    (o.write (file_from_id idnum) = .failOpen →
      write_markdown o fs idnum fm c = fs) ∧
    (o.write (file_from_id idnum) = .ok →
      write_markdown o fs idnum fm c
        = fs_set fs (file_from_id idnum) (create_markdown_str fm c)) ∧
    (∀ k, o.write (file_from_id idnum) = .failMid k →
      write_markdown o fs idnum fm c
        = fs_set fs (file_from_id idnum) ((create_markdown_str fm c).take k)) ∧
    (∀ saved data, (reconcile_step o saved fs data).2 = true →
      read_hugo_markdown o.readOk fs data.id = none) := by
  refine ⟨fun h => by simp [write_markdown, h],
    fun h => by simp [write_markdown, h],
    fun k h => by simp [write_markdown, h],
    fun saved data hc => ?_⟩
  by_cases hm : data.id ∈ saved
  · unfold reconcile_step at hc
    rw [if_pos hm] at hc
    cases hr : read_hugo_markdown o.readOk fs data.id with
    | none => rfl
    | some p =>
      rw [hr] at hc
      obtain ⟨fmq, cq⟩ := p
      cases fmq with
      | none => simp at hc
      | some m =>
        by_cases he : jsonEq m data.metadata <;> simp [he] at hc
  · unfold reconcile_step at hc
    rw [if_neg hm] at hc
    simp at hc

/-- C8 amended witness: the three write outcomes on concrete stores, and
a concrete crash whose cause is indeed a failed read. -/
theorem write_markdown_failure_modes_witness :
    write_markdown o_open_fail fs_one ['9'] (.num 1) [] = fs_one ∧
    write_markdown o_ok fs_one ['9'] (.num 1) []
      = fs_set fs_one (file_from_id ['9']) (create_markdown_str (.num 1) []) ∧
    write_markdown o_write_fail fs_one ['9'] (.num 1) []
      = fs_set fs_one (file_from_id ['9']) ((create_markdown_str (.num 1) []).take 3) ∧
    read_hugo_markdown o_read_fail.readOk fs_one ['7'] = none := by
  refine ⟨(write_markdown_failure_modes o_open_fail fs_one ['9'] (.num 1) []).1 rfl,
    (write_markdown_failure_modes o_ok fs_one ['9'] (.num 1) []).2.1 rfl,
    (write_markdown_failure_modes o_write_fail fs_one ['9'] (.num 1) []).2.2.1 3 rfl,
    (write_markdown_failure_modes o_read_fail fs_one ['7'] (.num 1) []).2.2.2
      (saved_ids fs_one) ⟨['7'], .num 1, []⟩ rfl⟩


/-! ## Run-unfolding lemmas -/

theorem full_run_done (o : Oracles) (fuel : Nat) (fs0 : Fs) (ids : List Int)
    (tr2 : List (Option Int × List Int))
    (hl : retrieve_obs_ids o.listing fuel = .done ids tr2) :
    full_run o fuel fs0
      = match fetch_loop o ids with
        | (req, _, some i) => some ⟨req, fs0, some (.reformatCrash i)⟩
        | (req, rs, none) =>
          match reconcile_loop o (saved_ids fs0) fs0 rs with
          | (fs1, some s) => some ⟨req, fs1, some (.readCrash s)⟩
          | (fs1, none) => some ⟨req, fs1, none⟩ := by
  unfold full_run
  rw [hl]

/-! ## Reshaping lemmas -/

theorem fields_to_obj_isSome (j : Json) (ks : List (List Char)) :
    (fields_to_obj j ks).isSome = ks.all (fun k => (jget j k).isSome) := by
  induction ks with
  | nil => simp [fields_to_obj]
  | cons k ks ih =>
    cases hk : jget j k with
    | none => simp [fields_to_obj, hk]
    | some v =>
      cases hr : fields_to_obj j ks with
      | none => rw [hr] at ih; simp [fields_to_obj, hk, hr, ← ih]
      | some rest => rw [hr] at ih; simp [fields_to_obj, hk, hr, ← ih]

theorem fields_to_obj_keys (j : Json) (ks : List (List Char)) (ob : JsonObj)
    (h : fields_to_obj j ks = some ob) : json_keys ob = ks := by
  induction ks generalizing ob with
  | nil =>
    unfold fields_to_obj at h
    injection h with h
    subst h
    rfl
  | cons k ks ih =>
    unfold fields_to_obj at h
    cases hk : jget j k with
    | none => rw [hk] at h; cases h
    | some v =>
      rw [hk] at h
      cases hr : fields_to_obj j ks with
      | none => rw [hr] at h; cases h
      | some rest =>
        rw [hr] at h
        injection h with h
        subst h
        simp [json_keys, ih rest hr]

theorem reformat_obs_present (obsid : Int) (dj : Json) (r : Reshaped)
    (h : reformat_obs obsid dj = some r) :
    required_present dj = true ∧
    r.id = int_repr obsid ∧ r.content = [] ∧
    ∃ kvs, r.metadata = .obj kvs ∧ json_keys kvs = metadata_key_list := by
  unfold reformat_obs at h
  split at h
  · exact absurd h (by simp)
  next uri h1 =>
  split at h
  · exact absurd h (by simp)
  next date h2 =>
  split at h
  · exact absurd h (by simp)
  next taxon h3 =>
  split at h
  · exact absurd h (by simp)
  next tn h4 =>
  split at h
  · exact absurd h (by simp)
  next tc h5 =>
  split at h
  · exact absurd h (by simp)
  next rest h6 =>
  have hall : desired_fields.all (fun k => (jget dj k).isSome) = true := by
    rw [← fields_to_obj_isSome dj desired_fields, h6]
    rfl
  have hp : required_present dj = true := by
    unfold required_present
    simp [h1, h2, h3, h4, h5, hall]
  injection h with h
  subst h
  exact ⟨hp, rfl, rfl, _, rfl, by
    simp [json_keys, metadata_key_list, fields_to_obj_keys dj desired_fields rest h6]⟩

theorem reformat_obs_none_of_missing (obsid : Int) (dj : Json)
    (habs : required_present dj = false) : reformat_obs obsid dj = none := by
  cases hh : reformat_obs obsid dj with
  | none => rfl
  | some r =>
    rw [(reformat_obs_present obsid dj r hh).1] at habs
    cases habs

/-! ## C3 — a missing required field aborts the whole run -/

theorem fetch_loop_crash_of_bad_reformat (o : Oracles) (ids : List Int) (i : Int)
    (dj : Json) (hd : o.detail i = .ok dj) (hre : reformat_obs i dj = none)
    (hi : i ∈ (fetch_loop o ids).1) : (fetch_loop o ids).2.2 ≠ none := by
  induction ids with
  | nil => simp [fetch_loop] at hi
  | cons a rest ih =>
    cases hda : o.detail a with
    | fail =>
      rcases hr : fetch_loop o rest with ⟨req, rs, c⟩
      rw [hr] at ih
      simp only [fetch_loop, hda, hr] at hi ⊢
      rcases List.mem_cons.mp hi with rfl | hi2
      · rw [hda] at hd; cases hd
      · exact ih hi2
    | malformed =>
      rcases hr : fetch_loop o rest with ⟨req, rs, c⟩
      rw [hr] at ih
      simp only [fetch_loop, hda, hr] at hi ⊢
      rcases List.mem_cons.mp hi with rfl | hi2
      · rw [hda] at hd; cases hd
      · exact ih hi2
    | ok j =>
      cases hrf : reformat_obs a j with
      | none => simp [fetch_loop, hda, hrf]
      | some r =>
        rcases hr : fetch_loop o rest with ⟨req, rs, c⟩
        rw [hr] at ih
        simp only [fetch_loop, hda, hrf, hr] at hi ⊢
        rcases List.mem_cons.mp hi with rfl | hi2
        · rw [hda] at hd
          injection hd with hd
          subst hd
          rw [hre] at hrf
          cases hrf
        · exact ih hi2

/-- C3: for a fetched detail document with any required field of the
fixed field list absent (`required_present` false), the reshaping step
fails (`reformat_obs` returns its unguarded-lookup failure), and a run
that requested such an id ends with a nonzero exit status — the failure
aborts the entire run rather than skipping only that record. -/
theorem missing_required_field_aborts_run (o : Oracles) (fuel : Nat) (fs0 : Fs)
    (tr : RunTrace) (hrun : full_run o fuel fs0 = some tr) (i : Int)
    (hi : i ∈ tr.requested) (dj : Json) (hd : o.detail i = .ok dj)
    (habs : required_present dj = false) :
    reformat_obs i dj = none ∧ tr.exit ≠ none := by
  have hnone : reformat_obs i dj = none := reformat_obs_none_of_missing i dj habs
  refine ⟨hnone, ?_⟩
  cases hl : retrieve_obs_ids o.listing fuel with
  | timeout tr2 =>
    have h8 : full_run o fuel fs0 = none := by unfold full_run; rw [hl]
    rw [h8] at hrun
    exact Option.noConfusion hrun
  | fatal =>
    have h8 : full_run o fuel fs0 = some ⟨[], fs0, some .listingFail⟩ := by
      unfold full_run; rw [hl]
    rw [h8] at hrun
    have h9 := Option.some.inj hrun
    subst h9
    simp
  | done ids tr2 =>
    rw [full_run_done o fuel fs0 ids tr2 hl] at hrun
    rcases hf : fetch_loop o ids with ⟨req, rs, c⟩
    cases c with
    | some x =>
      rw [hf] at hrun
      have h9 := Option.some.inj hrun
      subst h9
      simp
    | none =>
      rw [hf] at hrun
      exfalso
      have hrun2 : (match reconcile_loop o (saved_ids fs0) fs0 rs with
          | (fs1, some s) => some (⟨req, fs1, some (.readCrash s)⟩ : RunTrace)
          | (fs1, none) => some ⟨req, fs1, none⟩) = some tr := hrun
      rcases hc : reconcile_loop o (saved_ids fs0) fs0 rs with ⟨fs1, cr⟩
      rw [hc] at hrun2
      have hreq : tr.requested = req := by
        cases cr with
        | none => have h9 := Option.some.inj hrun2; subst h9; rfl
        | some s => have h9 := Option.some.inj hrun2; subst h9; rfl
      apply fetch_loop_crash_of_bad_reformat o ids i dj hd hnone
      · rw [hf]
        rw [hreq] at hi
        exact hi
      · rw [hf]

/-- C3 witness: a run against a detail document lacking `uri` for id `7`:
the reshape fails and the run aborts nonzero after the single request. -/
theorem missing_required_field_aborts_run_witness :
    reformat_obs 7 detail_doc_no_uri = none ∧
    (⟨[7], [], some (.reformatCrash 7)⟩ : RunTrace).exit ≠ none :=
  missing_required_field_aborts_run o_missing_field 5 []
    ⟨[7], [], some (.reformatCrash 7)⟩ rfl 7 (by decide) detail_doc_no_uri rfl rfl

/-! ## C9 — one new remote record creates one file (with 18 keys) -/

/-- C9 counterexample: from an empty store, a remote collection holding
exactly one record with id `123` produces exactly one file (named
`.//123.md` by `file_from_id`) — but its stored metadata mapping has
EIGHTEEN keys, not the claimed fifteen: `syndication` (among others) is a
stored key that is not one of the fifteen desired fields. -/
theorem single_record_run_counterexample :
    full_run o_single 5 []
      = some ⟨[123],
          [(file_from_id "123".toList, create_markdown_str (.obj md123) [])], none⟩ ∧
    (json_keys md123).length = 18 ∧
    "syndication".toList ∈ json_keys md123 ∧
    "syndication".toList ∉ desired_fields :=
  ⟨rfl, rfl, by decide, by decide⟩

/-- C9 amended: starting from an empty local store, a run whose listing
is exactly the id `123` and whose detail document reshapes successfully
creates exactly one file, named from id `123`, and exits with status 0;
the stored metadata mapping carries exactly the eighteen fixed keys —
`syndication`, `date`, `taxon` and the fifteen desired fields — rather
than the claimed fifteen. -/
theorem single_new_record_creates_one_file (o : Oracles) (fuel : Nat)
    (dj : Json) (r : Reshaped) (trL : List (Option Int × List Int))
    (hL : retrieve_obs_ids o.listing fuel = .done [123] trL)
    (hd : o.detail 123 = .ok dj)
    (hr : reformat_obs 123 dj = some r)
    (hw : o.write (file_from_id r.id) = .ok) :
    full_run o fuel []
      = some ⟨[123],
          [(file_from_id r.id, create_markdown_str r.metadata r.content)], none⟩ ∧
    r.id = int_repr 123 ∧
    ∃ kvs, r.metadata = .obj kvs ∧ json_keys kvs = metadata_key_list := by
  have hshape := reformat_obs_present 123 dj r hr
  refine ⟨?_, hshape.2.1, hshape.2.2.2⟩
  have hf : fetch_loop o [123] = ([123], [r], none) := by
    simp [fetch_loop, hd, hr]
  have hstep : reconcile_loop o (saved_ids []) [] [r]
      = ([(file_from_id r.id, create_markdown_str r.metadata r.content)], none) := by
    simp [reconcile_loop, reconcile_step, saved_ids, write_markdown, hw, fs_set]
  have hgoal : (match reconcile_loop o (saved_ids []) [] [r] with
      | (fs1, some s) => some (⟨[123], fs1, some (.readCrash s)⟩ : RunTrace)
      | (fs1, none) => some ⟨[123], fs1, none⟩)
      = some ⟨[123],
          [(file_from_id r.id, create_markdown_str r.metadata r.content)], none⟩ := by
    rw [hstep]
  rw [full_run_done o fuel [] [123] trL hL, hf]
  exact hgoal

/-- C9 amended witness: the concrete single-record run. -/
theorem single_new_record_creates_one_file_witness :
    full_run o_single 5 []
      = some ⟨[123],
          [(file_from_id r123.id, create_markdown_str r123.metadata r123.content)], none⟩ ∧
    r123.id = int_repr 123 ∧
    ∃ kvs, r123.metadata = .obj kvs ∧ json_keys kvs = metadata_key_list :=
  single_new_record_creates_one_file o_single 5 detail_doc r123
    [(none, [123]), (some 123, [])] rfl rfl rfl rfl

/-! ## C10 — total behaviour of `hugo_markdown_to_json` -/

/-- C10: for every input string `hugo_markdown_to_json` returns (no
branch of the model can fail, mirroring that Python slicing never
raises); it returns `None` exactly when the input has fewer than two
(overlapping) occurrences of the delimiter `'---'`; and otherwise it
returns a pair whose first component is `None` exactly when the text
between the first two delimiters does not parse as a JSON object — so a
caller unpacking the result as a pair fails precisely on delimiter-poor
input. -/
theorem hugo_markdown_none_iff (s : List Char) :
    (hugo_markdown_to_json s = none ↔ (findall three_dashes s).length < 2) ∧
    (∀ fm html, hugo_markdown_to_json s = some (fm, html) →
      (fm = none ↔ is_json_obj (front_slice s) = false)) := by
  cases hfa : findall three_dashes s with
  | nil =>
    constructor
    · simp [hugo_markdown_to_json, hfa]
    · intro fm html h
      simp [hugo_markdown_to_json, hfa] at h
  | cons i0 tl =>
    cases tl with
    | nil =>
      constructor
      · simp [hugo_markdown_to_json, hfa]
      · intro fm html h
        simp [hugo_markdown_to_json, hfa] at h
    | cons i1 rest =>
      have hfront : front_slice s = (s.take i1).drop (i0 + 3) := by
        simp [front_slice, hfa]
      constructor
      · simp [hugo_markdown_to_json, hfa]
      · intro fm html h
        simp only [hugo_markdown_to_json, hfa, Option.some.injEq, Prod.mk.injEq] at h
        obtain ⟨h1, h2⟩ := h
        subst h1
        rw [hfront]
        cases hjl : json_loads ((s.take i1).drop (i0 + 3)) with
        | none => simp [is_json_obj, hjl]
        | some v => cases v <;> simp [is_json_obj, hjl]

/-- C10 witness: a delimiter-poor input maps to `None`, and a well-formed
document's frontmatter parses to an object. -/
theorem hugo_markdown_none_iff_witness :
    (hugo_markdown_to_json "garbage".toList = none ↔
      (findall three_dashes "garbage".toList).length < 2) ∧
    ((some (Json.obj (.cons "a".toList (.num 1) .nil)) : Option Json) = none ↔
      is_json_obj (front_slice md_good) = false) :=
  ⟨(hugo_markdown_none_iff "garbage".toList).1,
   (hugo_markdown_none_iff md_good).2 (some (.obj (.cons "a".toList (.num 1) .nil))) [] rfl⟩

/-! ## C2 — pagination cursors, termination and concatenation -/

theorem retrieve_aux_cons (server : Option Int → ListingResp) (fuel : Nat)
    (minId : Int) (x : Int) (xs : List Int)
    (hs : server (if minId > 0 then some minId else none) = .ok (x :: xs)) :
    retrieve_obs_ids_aux server (fuel + 1) minId
      = match retrieve_obs_ids_aux server fuel ((x :: xs).getLast (List.cons_ne_nil x xs)) with
        | .fatal => .fatal
        | .timeout tr => .timeout (((if minId > 0 then some minId else none), x :: xs) :: tr)
        | .done ids tr =>
          .done ((x :: xs) ++ ids) (((if minId > 0 then some minId else none), x :: xs) :: tr) := by
  conv_lhs => unfold retrieve_obs_ids_aux
  rw [hs]

theorem retrieve_aux_spec (server : Option Int → ListingResp)
    (hpos : ∀ c p, server c = .ok p → ∀ x ∈ p, 0 < x) :
    ∀ (fuel : Nat) (minId : Int),
      (∀ ids tr, retrieve_obs_ids_aux server fuel minId = .done ids tr →
        tr.head?.map Prod.fst = some (if minId > 0 then some minId else none) ∧
        cursor_matches_last tr = true ∧
        ids = (tr.map Prod.snd).flatten ∧
        (tr.map Prod.snd).getLast? = some [] ∧
        ∀ p ∈ (tr.map Prod.snd).dropLast, p ≠ []) ∧
      (∀ tr, retrieve_obs_ids_aux server fuel minId = .timeout tr →
        (tr = [] ∨ tr.head?.map Prod.fst
          = some (if minId > 0 then some minId else none)) ∧
        cursor_matches_last tr = true ∧
        ∀ p ∈ tr.map Prod.snd, p ≠ []) := by
  intro fuel
  induction fuel with
  | zero =>
    intro minId
    constructor
    · intro ids tr hd
      exact LResult.noConfusion hd
    · intro tr ht
      injection ht with h
      subst h
      exact ⟨Or.inl rfl, rfl, by simp⟩
  | succ fuel ih =>
    intro minId
    cases hs : server (if minId > 0 then some minId else none) with
    | fail =>
      constructor
      · intro ids tr hd
        unfold retrieve_obs_ids_aux at hd
        rw [hs] at hd
        exact LResult.noConfusion hd
      · intro tr ht
        unfold retrieve_obs_ids_aux at ht
        rw [hs] at ht
        exact LResult.noConfusion ht
    | malformed =>
      constructor
      · intro ids tr hd
        unfold retrieve_obs_ids_aux at hd
        rw [hs] at hd
        exact LResult.noConfusion hd
      · intro tr ht
        unfold retrieve_obs_ids_aux at ht
        rw [hs] at ht
        exact LResult.noConfusion ht
    | notList =>
      constructor
      · intro ids tr hd
        unfold retrieve_obs_ids_aux at hd
        rw [hs] at hd
        exact LResult.noConfusion hd
      · intro tr ht
        unfold retrieve_obs_ids_aux at ht
        rw [hs] at ht
        exact LResult.noConfusion ht
    | ok page =>
      cases page with
      | nil =>
        constructor
        · intro ids tr hd
          unfold retrieve_obs_ids_aux at hd
          rw [hs] at hd
          injection hd with h1 h2
          subst h1
          subst h2
          refine ⟨rfl, rfl, rfl, rfl, by simp⟩
        · intro tr ht
          unfold retrieve_obs_ids_aux at ht
          rw [hs] at ht
          exact LResult.noConfusion ht
      | cons x xs =>
        have hm : 0 < (x :: xs).getLast (List.cons_ne_nil x xs) :=
          hpos _ _ hs _ (List.getLast_mem (List.cons_ne_nil x xs))
        have hcursor : (if (x :: xs).getLast (List.cons_ne_nil x xs) > 0
            then some ((x :: xs).getLast (List.cons_ne_nil x xs)) else none)
            = some ((x :: xs).getLast (List.cons_ne_nil x xs)) := by
          rw [if_pos hm]
        have hlastq : (x :: xs).getLast? = some ((x :: xs).getLast (List.cons_ne_nil x xs)) :=
          List.getLast?_eq_getLast (x :: xs) (List.cons_ne_nil x xs)
        cases hin : retrieve_obs_ids_aux server fuel ((x :: xs).getLast (List.cons_ne_nil x xs)) with
        | fatal =>
          constructor
          · intro ids tr hd
            rw [retrieve_aux_cons server fuel minId x xs hs, hin] at hd
            exact LResult.noConfusion hd
          · intro tr ht
            rw [retrieve_aux_cons server fuel minId x xs hs, hin] at ht
            exact LResult.noConfusion ht
        | timeout tr2 =>
          have ihh := ((ih ((x :: xs).getLast (List.cons_ne_nil x xs))).2 tr2 hin)
          constructor
          · intro ids tr hd
            rw [retrieve_aux_cons server fuel minId x xs hs, hin] at hd
            exact LResult.noConfusion hd
          · intro tr ht
            rw [retrieve_aux_cons server fuel minId x xs hs, hin] at ht
            injection ht with h1
            subst h1
            refine ⟨Or.inr rfl, ?_, ?_⟩
            · cases tr2 with
              | nil => rfl
              | cons q r =>
                obtain ⟨qc, qp⟩ := q
                have hq : qc = some ((x :: xs).getLast (List.cons_ne_nil x xs)) := by
                  rcases ihh.1 with h | h
                  · exact absurd h (by simp)
                  · rw [hcursor] at h
                    simpa using h
                subst hq
                show (some ((x :: xs).getLast (List.cons_ne_nil x xs)) == (x :: xs).getLast?
                    && cursor_matches_last
                      ((some ((x :: xs).getLast (List.cons_ne_nil x xs)), qp) :: r)) = true
                rw [hlastq, ihh.2.1]
                simp
            · intro p hp
              rcases List.mem_cons.mp hp with rfl | hp2
              · simp
              · exact ihh.2.2 p hp2
        | done ids2 tr2 =>
          have ihh := ((ih ((x :: xs).getLast (List.cons_ne_nil x xs))).1 ids2 tr2 hin)
          have htr2ne : tr2 ≠ [] := by
            intro h
            rw [h] at ihh
            exact Option.noConfusion ihh.2.2.2.1
          constructor
          · intro ids tr hd
            rw [retrieve_aux_cons server fuel minId x xs hs, hin] at hd
            injection hd with h1 h2
            subst h1
            subst h2
            obtain ⟨q, r, hq⟩ : ∃ q r, tr2 = q :: r := by
              cases tr2 with
              | nil => exact absurd rfl htr2ne
              | cons q r => exact ⟨q, r, rfl⟩
            subst hq
            obtain ⟨qc, qp⟩ := q
            have hqc : qc = some ((x :: xs).getLast (List.cons_ne_nil x xs)) := by
              have h := ihh.1
              rw [hcursor] at h
              simpa using h
            subst hqc
            refine ⟨rfl, ?_, ?_, ?_, ?_⟩
            · show (some ((x :: xs).getLast (List.cons_ne_nil x xs)) == (x :: xs).getLast?
                  && cursor_matches_last
                    ((some ((x :: xs).getLast (List.cons_ne_nil x xs)), qp) :: r)) = true
              rw [hlastq, ihh.2.1]
              simp
            · simpa using ihh.2.2.1
            · simpa using ihh.2.2.2.1
            · intro p hp
              rcases List.mem_cons.mp hp with rfl | hp2
              · simp
              · exact ihh.2.2.2.2 p (by simpa using hp2)
          · intro tr ht
            rw [retrieve_aux_cons server fuel minId x xs hs, hin] at ht
            exact LResult.noConfusion ht

/-- C2 amended: with every id the server issues positive (as real
observation ids are — the claim silently assumes this, and the
counterexample shows it is needed): the first listing request carries no
cursor; every later request's `id_below` cursor equals the last id of
the page before it; the collected result is the in-order concatenation
of all pages; and the loop ends exactly at an empty page — in a
terminated run the last page (and only it) is empty, and in an
unterminated prefix no page is empty. -/
theorem listing_pagination_spec (server : Option Int → ListingResp) (fuel : Nat)
    (hpos : ∀ c p, server c = .ok p → ∀ x ∈ p, 0 < x) :
    (∀ ids tr, retrieve_obs_ids server fuel = .done ids tr →
      tr.head?.map Prod.fst = some none ∧
      cursor_matches_last tr = true ∧
      ids = (tr.map Prod.snd).flatten ∧
      (tr.map Prod.snd).getLast? = some [] ∧
      ∀ p ∈ (tr.map Prod.snd).dropLast, p ≠ []) ∧
    (∀ tr, retrieve_obs_ids server fuel = .timeout tr →
      cursor_matches_last tr = true ∧ ∀ p ∈ tr.map Prod.snd, p ≠ []) := by
  have h := retrieve_aux_spec server hpos fuel (-1)
  constructor
  · intro ids tr hd
    have h2 := h.1 ids tr hd
    have h3 : (if (-1 : Int) > 0 then some (-1 : Int) else none) = none := by norm_num
    rw [h3] at h2
    exact h2
  · intro tr ht
    exact ⟨(h.2 tr ht).2.1, (h.2 tr ht).2.2⟩

/-- C2 counterexample: a server whose first page is `[5, 0]` (the last
id is `0`).  The `MIN_OBS_ID > 0` guard then sends NO cursor on the
following requests, so the run loops over the same page forever; in the
trace of its first three iterations the second request's cursor is
`None`, not the previous page's last id `0` — the claim's cursor law is
violated by the requests the script actually makes. -/
theorem listing_cursor_counterexample :
    retrieve_obs_ids srv_zero 3
      = .timeout [(none, [5, 0]), (none, [5, 0]), (none, [5, 0])] ∧
    cursor_matches_last [(none, [5, 0]), (none, [5, 0]), (none, [5, 0])] = false :=
  ⟨rfl, rfl⟩

/-- C2 witness: a two-page run with positive ids. -/
theorem listing_pagination_spec_witness :
    ([(none, [9, 8]), (some 8, [])] : List (Option Int × List Int)).head?.map Prod.fst
      = some none ∧
    cursor_matches_last [(none, [9, 8]), (some 8, [])] = true ∧
    ([9, 8] : List Int)
      = (([(none, [9, 8]), (some 8, [])] : List (Option Int × List Int)).map Prod.snd).flatten ∧
    (([(none, [9, 8]), (some 8, [])] : List (Option Int × List Int)).map Prod.snd).getLast?
      = some [] ∧
    ∀ p ∈ (([(none, [9, 8]), (some 8, [])] : List (Option Int × List Int)).map
        Prod.snd).dropLast, p ≠ [] := by
  exact (listing_pagination_spec srv_two 5 (by intro c p h x hx; cases c with | none => injection h with h; subst h; simp at hx; rcases hx with rfl | rfl <;> norm_num | some k => injection h with h; subst h; simp at hx)).1 [9, 8] [(none, [9, 8]), (some 8, [])] rfl

/-! ## C5 — per-id isolation of detail failures -/

theorem file_from_id_inj : Function.Injective file_from_id := by
  intro a b h
  unfold file_from_id CONTENT_LOCATION at h
  simp at h
  exact h

theorem write_markdown_frame (o : Oracles) (fs : Fs) (idnum : List Char)
    (fm : Json) (c : List Char) (f : List Char) (hne : f ≠ file_from_id idnum) :
    fs_get (write_markdown o fs idnum fm c) f = fs_get fs f := by
  unfold write_markdown
  cases o.write (file_from_id idnum) with
  | ok => exact fs_get_set_ne fs (file_from_id idnum) _ f hne
  | failOpen => rfl
  | failMid k => exact fs_get_set_ne fs (file_from_id idnum) _ f hne

theorem reconcile_step_frame (o : Oracles) (saved : List (List Char)) (fs : Fs)
    (data : Reshaped) (f : List Char) (hne : f ≠ file_from_id data.id) :
    fs_get (reconcile_step o saved fs data).1 f = fs_get fs f := by
  by_cases hm : data.id ∈ saved
  · cases hr : read_hugo_markdown o.readOk fs data.id with
    | none => simp [reconcile_step, hm, hr]
    | some p =>
      obtain ⟨fmq, cq⟩ := p
      cases fmq with
      | none => simp [reconcile_step, hm, hr]
      | some m =>
        by_cases he : jsonEq m data.metadata
        · simp [reconcile_step, hm, hr, he]
        · simp [reconcile_step, hm, hr, he,
            write_markdown_frame o fs data.id data.metadata data.content f hne]
  · simp [reconcile_step, hm,
      write_markdown_frame o fs data.id data.metadata data.content f hne]

theorem read_hugo_congr (readOk : List Char → Bool) (fs fs2 : Fs) (idnum : List Char)
    (h : fs_get fs2 (file_from_id idnum) = fs_get fs (file_from_id idnum)) :
    read_hugo_markdown readOk fs2 idnum = read_hugo_markdown readOk fs idnum := by
  unfold read_hugo_markdown
  rw [h]

theorem reconcile_loop_frame (o : Oracles) (saved : List (List Char)) :
    ∀ (rs : List Reshaped) (fs : Fs) (f : List Char),
    (∀ r ∈ rs, f ≠ file_from_id r.id) →
    fs_get (reconcile_loop o saved fs rs).1 f = fs_get fs f := by
  intro rs
  induction rs with
  | nil => intro fs f hf; rfl
  | cons r rest ih =>
    intro fs f hf
    unfold reconcile_loop
    rcases hstep : reconcile_step o saved fs r with ⟨fs2, b⟩
    have hfr : fs_get fs2 f = fs_get fs f := by
      have := reconcile_step_frame o saved fs r f (hf r (List.mem_cons_self r rest))
      rw [hstep] at this
      exact this
    cases b with
    | true => exact hfr
    | false =>
      rw [ih fs2 f (fun r2 h2 => hf r2 (List.mem_cons_of_mem r h2))]
      exact hfr

theorem reconcile_loop_ok (o : Oracles) (saved : List (List Char)) :
    ∀ (rs : List Reshaped) (fs : Fs),
    (rs.map (fun r => file_from_id r.id)).Nodup →
    (∀ r ∈ rs, r.id ∈ saved → read_hugo_markdown o.readOk fs r.id ≠ none) →
    (reconcile_loop o saved fs rs).2 = none := by
  intro rs
  induction rs with
  | nil => intro fs _ _; rfl
  | cons r rest ih =>
    intro fs hnd hread
    rcases hstep : reconcile_step o saved fs r with ⟨fs2, b⟩
    have hb : b = false := by
      by_cases hm : r.id ∈ saved
      · have hr := hread r (List.mem_cons_self r rest) hm
        cases hrz : read_hugo_markdown o.readOk fs r.id with
        | none => exact absurd hrz hr
        | some p =>
          obtain ⟨fmq, cq⟩ := p
          cases fmq with
          | none =>
            have hq : reconcile_step o saved fs r = (fs, false) := by
              simp [reconcile_step, hm, hrz]
            rw [hq] at hstep
            injection hstep with h1 h2
            exact h2.symm
          | some m =>
            by_cases he : jsonEq m r.metadata
            · have hq : reconcile_step o saved fs r = (fs, false) := by
                simp [reconcile_step, hm, hrz, he]
              rw [hq] at hstep
              injection hstep with h1 h2
              exact h2.symm
            · have hq : reconcile_step o saved fs r
                  = (write_markdown o fs r.id r.metadata r.content, false) := by
                simp [reconcile_step, hm, hrz, he]
              rw [hq] at hstep
              injection hstep with h1 h2
              exact h2.symm
      · have hq : reconcile_step o saved fs r
            = (write_markdown o fs r.id r.metadata r.content, false) := by
          simp [reconcile_step, hm]
        rw [hq] at hstep
        injection hstep with h1 h2
        exact h2.symm
    subst hb
    unfold reconcile_loop
    rw [hstep]
    apply ih fs2 (List.Nodup.of_cons hnd)
    intro r2 h2 hm2
    have hne : file_from_id r2.id ≠ file_from_id r.id := by
      intro h
      have : file_from_id r.id ∈ rest.map (fun r => file_from_id r.id) :=
        h ▸ List.mem_map_of_mem (fun r => file_from_id r.id) h2
      exact (List.nodup_cons.mp hnd).1 this
    have hfs : fs_get fs2 (file_from_id r2.id) = fs_get fs (file_from_id r2.id) := by
      have := reconcile_step_frame o saved fs r (file_from_id r2.id) hne
      rw [hstep] at this
      exact this
    rw [read_hugo_congr o.readOk fs fs2 r2.id hfs]
    exact hread r2 (List.mem_cons_of_mem r h2) hm2

theorem fetch_loop_all_requested (o : Oracles) (ids : List Int)
    (hre : ∀ a ∈ ids, ∀ j, o.detail a = .ok j → reformat_obs a j ≠ none) :
    (fetch_loop o ids).1 = ids ∧ (fetch_loop o ids).2.2 = none := by
  induction ids with
  | nil => exact ⟨rfl, rfl⟩
  | cons a rest ih =>
    have ih2 := ih (fun b hb j hj => hre b (List.mem_cons_of_mem a hb) j hj)
    rcases hr : fetch_loop o rest with ⟨req, rs, c⟩
    rw [hr] at ih2
    cases hda : o.detail a with
    | fail => simpa [fetch_loop, hda, hr] using ih2
    | malformed => simpa [fetch_loop, hda, hr] using ih2
    | ok j =>
      cases hrf : reformat_obs a j with
      | none => exact absurd hrf (hre a (List.mem_cons_self a rest) j hda)
      | some r => simpa [fetch_loop, hda, hrf, hr] using ih2

theorem fetch_loop_skipped (o : Oracles) (ids : List Int) (i : Int)
    (hfailed : o.detail i = .fail ∨ o.detail i = .malformed)
    (hinj : ∀ a ∈ ids, int_repr a = int_repr i → a = i) :
    ∀ r ∈ (fetch_loop o ids).2.1, r.id ≠ int_repr i := by
  induction ids with
  | nil => intro r hr; simp [fetch_loop] at hr
  | cons a rest ih =>
    have ih2 := ih (fun b hb he => hinj b (List.mem_cons_of_mem a hb) he)
    intro r hrm
    rcases hr : fetch_loop o rest with ⟨req, rs, c⟩
    rw [hr] at ih2
    cases hda : o.detail a with
    | fail =>
      simp only [fetch_loop, hda, hr] at hrm
      exact ih2 r hrm
    | malformed =>
      simp only [fetch_loop, hda, hr] at hrm
      exact ih2 r hrm
    | ok j =>
      cases hrf : reformat_obs a j with
      | none => simp [fetch_loop, hda, hrf] at hrm
      | some r2 =>
        simp only [fetch_loop, hda, hrf, hr] at hrm
        rcases List.mem_cons.mp hrm with rfl | hrm2
        · intro hid
          have hid2 : r.id = int_repr a := (reformat_obs_present a j r hrf).2.1
          have : a = i := hinj a (List.mem_cons_self a rest) (hid2.symm.trans hid)
          subst this
          rcases hfailed with h | h <;> rw [hda] at h <;> cases h
        · exact ih2 r hrm2

theorem fetch_loop_ids_sublist (o : Oracles) (ids : List Int) :
    ((fetch_loop o ids).2.1.map Reshaped.id).Sublist (ids.map int_repr) := by
  induction ids with
  | nil => simp [fetch_loop]
  | cons a rest ih =>
    rcases hr : fetch_loop o rest with ⟨req, rs, c⟩
    rw [hr] at ih
    cases hda : o.detail a with
    | fail =>
      simp only [fetch_loop, hda, hr, List.map_cons]
      exact ih.cons (int_repr a)
    | malformed =>
      simp only [fetch_loop, hda, hr, List.map_cons]
      exact ih.cons (int_repr a)
    | ok j =>
      cases hrf : reformat_obs a j with
      | none => simp [fetch_loop, hda, hrf]
      | some r =>
        simp only [fetch_loop, hda, hrf, hr, List.map_cons]
        rw [(reformat_obs_present a j r hrf).2.1]
        exact ih.cons₂ (int_repr a)

/-- C5: for an id in the listed sequence whose detail request fails or
returns a malformed body, the id is skipped (no reshaped record carries
it) while all ids are still requested in order; the failed id's local
file is untouched by the whole run; and — when the other records are
healthy (no reshape failure, saved records readable) — the run still
ends with exit status 0. -/
theorem detail_failure_skips_only_that_id (o : Oracles) (fuel : Nat) (fs0 : Fs)
    (ids : List Int) (trL : List (Option Int × List Int)) (i : Int)
    (hL : retrieve_obs_ids o.listing fuel = .done ids trL)
    (hi : i ∈ ids)
    (hfail : o.detail i = .fail ∨ o.detail i = .malformed)
    (hnd : (ids.map int_repr).Nodup)
    (hre : ∀ a ∈ ids, ∀ j, o.detail a = .ok j → reformat_obs a j ≠ none)
    (hread : ∀ r ∈ (fetch_loop o ids).2.1, r.id ∈ saved_ids fs0 →
      read_hugo_markdown o.readOk fs0 r.id ≠ none) :
    ∃ fs1, full_run o fuel fs0 = some ⟨ids, fs1, none⟩ ∧
      int_repr i ∉ (fetch_loop o ids).2.1.map Reshaped.id ∧
      fs_get fs1 (file_from_id (int_repr i)) = fs_get fs0 (file_from_id (int_repr i)) := by
  have hinj : ∀ a ∈ ids, int_repr a = int_repr i → a = i := by
    intro a ha he
    exact List.inj_on_of_nodup_map hnd ha hi he
  have hskip := fetch_loop_skipped o ids i hfail hinj
  have hnotmem : int_repr i ∉ (fetch_loop o ids).2.1.map Reshaped.id := by
    intro hmem
    rcases List.mem_map.mp hmem with ⟨r, hr, hid⟩
    exact hskip r hr hid
  have hall := fetch_loop_all_requested o ids hre
  have hsub := fetch_loop_ids_sublist o ids
  have hndf : ((fetch_loop o ids).2.1.map (fun r => file_from_id r.id)).Nodup := by
    have h1 : ((fetch_loop o ids).2.1.map Reshaped.id).Nodup := hnd.sublist hsub
    have h2 := h1.map (f := file_from_id) file_from_id_inj
    rw [List.map_map] at h2
    exact h2
  rcases hfe : fetch_loop o ids with ⟨req, rs, c⟩
  rw [hfe] at hall hnotmem hskip hread hndf
  obtain ⟨hreq, hc⟩ := hall
  simp only at hreq hc
  subst hreq
  subst hc
  have hok := reconcile_loop_ok o (saved_ids fs0) rs fs0 hndf hread
  rcases hrl : reconcile_loop o (saved_ids fs0) fs0 rs with ⟨fs1, cr⟩
  rw [hrl] at hok
  simp only at hok
  subst hok
  refine ⟨fs1, ?_, hnotmem, ?_⟩
  · rw [full_run_done o fuel fs0 req trL hL, hfe]
    have : (match reconcile_loop o (saved_ids fs0) fs0 rs with
        | (fs2, some s) => some (⟨req, fs2, some (.readCrash s)⟩ : RunTrace)
        | (fs2, none) => some ⟨req, fs2, none⟩)
        = some ⟨req, fs1, none⟩ := by
      rw [hrl]
    exact this
  · have hfr := reconcile_loop_frame o (saved_ids fs0) rs fs0
      (file_from_id (int_repr i)) ?_
    · rw [hrl] at hfr
      exact hfr
    · intro r hrm heq
      exact hskip r hrm (file_from_id_inj heq.symm).symm.symm



/-- C5 witness: ids `[9, 8]` with the detail request for `8` failing. -/
theorem detail_failure_skips_only_that_id_witness :
    ∃ fs1, full_run o_skip 5 [] = some ⟨[9, 8], fs1, none⟩ ∧
      int_repr 8 ∉ (fetch_loop o_skip [9, 8]).2.1.map Reshaped.id ∧
      fs_get fs1 (file_from_id (int_repr 8)) = fs_get [] (file_from_id (int_repr 8)) := by
  refine detail_failure_skips_only_that_id o_skip 5 [] [9, 8]
    [(none, [9, 8]), (some 8, [])] 8 rfl (by decide) (Or.inl rfl) (by decide) ?_ ?_
  · intro a ha j hj
    rcases List.mem_cons.mp ha with rfl | ha2
    · have h9 : o_skip.detail 9 = DetailResp.ok detail_doc := rfl
      rw [h9] at hj
      injection hj with h
      subst h
      intro hn
      have hs : (reformat_obs 9 detail_doc).isSome = true := rfl
      rw [hn] at hs
      cases hs
    · rcases List.mem_cons.mp ha2 with rfl | ha3
      · have h8 : o_skip.detail 8 = DetailResp.fail := rfl
        rw [h8] at hj
        cases hj
      · simp at ha3
  · intro r hr hm
    simp [saved_ids] at hm

/-! ## Serialise/parse round trip -/

theorem parse_string_roundtrip (s rest : List Char) :
    parse_string_body (escape_string s ++ '"' :: rest) = some (s, rest) := by
  induction s with
  | nil => rfl
  | cons c s ih =>
    have hesc : escape_string (c :: s) = escape_char c ++ escape_string s := rfl
    rw [hesc, List.append_assoc]
    by_cases h1 : c = '"'
    · subst h1
      rw [show escape_char '"' = ['\\', '"'] from by decide]
      simp only [List.cons_append, List.nil_append, parse_string_body]
      simp [esc_char, ih]
    · by_cases h2 : c = '\\'
      · subst h2
        rw [show escape_char '\\' = ['\\', '\\'] from by decide]
        simp only [List.cons_append, List.nil_append, parse_string_body]
        simp [esc_char, ih]
      · by_cases h3 : c = '\n'
        · subst h3
          rw [show escape_char '\n' = ['\\', 'n'] from by decide]
          simp only [List.cons_append, List.nil_append, parse_string_body]
          simp [esc_char, ih]
        · by_cases h4 : c = '\t'
          · subst h4
            rw [show escape_char '\t' = ['\\', 't'] from by decide]
            simp only [List.cons_append, List.nil_append, parse_string_body]
            simp [esc_char, ih]
          · by_cases h5 : c = '\r'
            · subst h5
              rw [show escape_char '\r' = ['\\', 'r'] from by decide]
              simp only [List.cons_append, List.nil_append, parse_string_body]
              simp [esc_char, ih]
            · rw [show escape_char c = [c] by simp [escape_char, h1, h2, h3, h4, h5]]
              rw [show ([c] : List Char) ++ (escape_string s ++ '"' :: rest)
                  = c :: (escape_string s ++ '"' :: rest) from rfl]
              rw [parse_string_body, ih]
              · exact h1
              · intro e r hc _
                exact absurd hc h2

theorem nat_repr_go_spec (fuel : Nat) : ∀ n, n < fuel →
    (∀ c ∈ nat_repr_go fuel n, c.isDigit = true) ∧
    nat_repr_go fuel n ≠ [] ∧
    (∀ a, (nat_repr_go fuel n).foldl (fun a c => 10 * a + (c.toNat - 48)) a
      = a * 10 ^ (nat_repr_go fuel n).length + n) := by
  induction fuel with
  | zero => intro n h; exact absurd h (by omega)
  | succ fuel ih =>
    intro n h
    by_cases h10 : n < 10
    · refine ⟨?_, ?_, ?_⟩
      · intro c hc
        rw [nat_repr_go, if_pos h10] at hc
        rcases List.mem_singleton.mp hc with rfl
        have : ∀ d, d < 10 → (digit_char d).isDigit = true := by decide
        exact this n h10
      · rw [nat_repr_go, if_pos h10]
        simp
      · intro a
        rw [nat_repr_go, if_pos h10]
        have hv : ∀ d, d < 10 → (digit_char d).toNat - 48 = d := by decide
        simp [hv n h10, Nat.mul_comm]
    · have hdiv : n / 10 < fuel := by
        have h2 : n / 10 < n := Nat.div_lt_self (by omega) (by norm_num)
        omega
      obtain ⟨hdig, hne, hval⟩ := ih (n / 10) hdiv
      refine ⟨?_, ?_, ?_⟩
      · intro c hc
        rw [nat_repr_go, if_neg h10] at hc
        rcases List.mem_append.mp hc with hc2 | hc2
        · exact hdig c hc2
        · rcases List.mem_singleton.mp hc2 with rfl
          have : ∀ d, d < 10 → (digit_char d).isDigit = true := by decide
          exact this (n % 10) (Nat.mod_lt n (by norm_num))
      · rw [nat_repr_go, if_neg h10]
        simp
      · intro a
        rw [nat_repr_go, if_neg h10]
        rw [List.foldl_append, hval a]
        have hv : ∀ d, d < 10 → (digit_char d).toNat - 48 = d := by decide
        simp only [List.foldl_cons, List.foldl_nil, List.length_append,
          List.length_singleton, hv (n % 10) (Nat.mod_lt n (by norm_num))]
        rw [pow_succ]
        have hmod := Nat.div_add_mod n 10
        ring_nf
        omega

theorem nat_repr_spec (n : Nat) :
    (∀ c ∈ nat_repr n, c.isDigit = true) ∧ nat_repr n ≠ [] ∧
    digits_val (nat_repr n) = n := by
  obtain ⟨h1, h2, h3⟩ := nat_repr_go_spec (n + 1) n (by omega)
  refine ⟨h1, h2, ?_⟩
  unfold digits_val nat_repr
  rw [h3 0]
  simp

theorem takeWhile_digits_append (l rest : List Char)
    (hl : ∀ c ∈ l, c.isDigit = true) (hr : num_stop rest = true) :
    (l ++ rest).takeWhile Char.isDigit = l ∧
    (l ++ rest).dropWhile Char.isDigit = rest := by
  induction l with
  | nil =>
    cases rest with
    | nil => exact ⟨rfl, rfl⟩
    | cons c r =>
      have hc : c.isDigit = false := by
        unfold num_stop at hr
        simpa using hr
      simp [List.takeWhile_cons, List.dropWhile_cons, hc]
  | cons c l ih =>
    have hc := hl c (List.mem_cons_self c l)
    obtain ⟨ht, hd⟩ := ih (fun c2 h2 => hl c2 (List.mem_cons_of_mem c h2))
    simp [List.takeWhile_cons, List.dropWhile_cons, hc, ht, hd]

/-- Facts about a digit character needed to steer the parser's dispatch. -/
theorem digit_char_facts (c : Char) (h : c.isDigit = true) :
    json_ws c = false ∧ c ≠ 'n' ∧ c ≠ 't' ∧ c ≠ 'f' ∧ c ≠ '"' ∧ c ≠ '[' ∧
    c ≠ '\x7b' ∧ c ≠ '-' := by
  have hne : ∀ d : Char, d.isDigit = false → c ≠ d := by
    intro d hd he
    subst he
    rw [h] at hd
    cases hd
  refine ⟨?_, hne 'n' (by decide), hne 't' (by decide), hne 'f' (by decide),
    hne '"' (by decide), hne '[' (by decide), hne '\x7b' (by decide),
    hne '-' (by decide)⟩
  have h1 := hne ' ' (by decide)
  have h2 := hne '\n' (by decide)
  have h3 := hne '\t' (by decide)
  have h4 := hne '\r' (by decide)
  simp [json_ws, h1, h2, h3, h4]


theorem obj_append_nil : ∀ (a : JsonObj), obj_append a .nil = a
  | .nil => rfl
  | .cons k v rest => by simp [obj_append, obj_append_nil rest]

theorem obj_append_assoc : ∀ (a : JsonObj) (b c : JsonObj),
    obj_append (obj_append a b) c = obj_append a (obj_append b c)
  | .nil, b, c => rfl
  | .cons k v rest, b, c => by simp [obj_append, obj_append_assoc rest b c]

theorem key_not_in_append : ∀ (k : List Char) (a b : JsonObj),
    key_not_in k (obj_append a b) = (key_not_in k a && key_not_in k b)
  | k, .nil, b => by simp [obj_append, key_not_in]
  | k, .cons k2 w rest, b => by
    simp [obj_append, key_not_in, key_not_in_append k rest b, Bool.and_assoc]

theorem dict_insert_fresh : ∀ (acc : JsonObj) (k : List Char) (v : Json),
    key_not_in k acc = true → dict_insert acc k v = obj_append acc (.cons k v .nil)
  | .nil, k, v, _ => rfl
  | .cons k2 w rest, k, v, h => by
    unfold key_not_in at h
    rw [Bool.and_eq_true] at h
    have hne : ¬ (k2 = k) := by
      intro he
      rw [he] at h
      simp at h
    simp [dict_insert, obj_append, hne, dict_insert_fresh rest k v h.2]

theorem keys_fresh_nil : ∀ (kvs : JsonObj), keys_fresh kvs .nil = true
  | .nil => rfl
  | .cons k v rest => by simp [keys_fresh, key_not_in, keys_fresh_nil rest]

theorem keys_fresh_append : ∀ (kvs a b : JsonObj),
    keys_fresh kvs (obj_append a b) = (keys_fresh kvs a && keys_fresh kvs b)
  | .nil, a, b => rfl
  | .cons k v rest, a, b => by
    simp [keys_fresh, key_not_in_append, keys_fresh_append rest a b]
    cases key_not_in k a <;> cases keys_fresh rest a <;> simp

theorem keys_fresh_single : ∀ (kvs : JsonObj) (k : List Char) (v : Json),
    key_not_in k kvs = true → keys_fresh kvs (.cons k v .nil) = true
  | .nil, k, v, _ => rfl
  | .cons k2 w rest, k, v, h => by
    unfold key_not_in at h
    rw [Bool.and_eq_true] at h
    have hne : (k == k2) = false := by
      refine beq_eq_false_iff_ne.mpr (fun he => ?_)
      rw [he] at h
      simp at h
    simp [keys_fresh, key_not_in, hne, keys_fresh_single rest k v h.2]

theorem foldl_insert_fresh : ∀ (kvs : JsonObj) (acc : JsonObj),
    keys_nodup kvs = true → keys_fresh kvs acc = true →
    (objToPairs kvs).foldl (fun d kv => dict_insert d kv.1 kv.2) acc
      = obj_append acc kvs
  | .nil, acc, _, _ => (obj_append_nil acc).symm
  | .cons k v rest, acc, hnd, hfr => by
    unfold keys_nodup at hnd
    rw [Bool.and_eq_true] at hnd
    unfold keys_fresh at hfr
    rw [Bool.and_eq_true] at hfr
    have h1 : (objToPairs (JsonObj.cons k v rest)).foldl
        (fun d kv => dict_insert d kv.1 kv.2) acc
        = (objToPairs rest).foldl (fun d kv => dict_insert d kv.1 kv.2)
            (dict_insert acc k v) := rfl
    rw [h1, dict_insert_fresh acc k v hfr.1]
    rw [foldl_insert_fresh rest (obj_append acc (.cons k v .nil)) hnd.2 ?_]
    · rw [obj_append_assoc]
      rfl
    · rw [keys_fresh_append]
      simp [hfr.2, keys_fresh_single rest k v hnd.1]

theorem build_dict_id (kvs : JsonObj) (h : keys_nodup kvs = true) :
    build_dict (objToPairs kvs) = kvs := by
  unfold build_dict
  rw [foldl_insert_fresh kvs .nil h (keys_fresh_nil kvs)]
  rfl

theorem skip_ws_cons (c : Char) (t : List Char) (h : json_ws c = false) :
    skip_ws (c :: t) = c :: t := by
  unfold skip_ws
  rw [List.dropWhile_cons, h]
  simp

theorem digit_ne (c d : Char) (h : c.isDigit = true) (hd : d.isDigit = false) :
    c ≠ d := by
  intro he
  rw [he] at h
  simp [hd] at h

theorem parse_value_space (fuel : Nat) (cs : List Char) :
    parse_value fuel (' ' :: cs) = parse_value fuel cs := by
  cases fuel with
  | zero => rfl
  | succ f => rfl

theorem parse_members_space (fuel : Nat) (cs : List Char) :
    parse_members fuel (' ' :: cs) = parse_members fuel cs := by
  cases fuel with
  | zero => rfl
  | succ f => rfl

theorem parse_elems_space (fuel : Nat) (cs : List Char) :
    parse_elems fuel (' ' :: cs) = parse_elems fuel cs := by
  cases fuel with
  | zero => rfl
  | succ f =>
    conv_lhs => unfold parse_elems
    conv_rhs => unfold parse_elems
    rw [parse_value_space]

theorem json_dumps_head (v : Json) : ∃ c t, json_dumps v = c :: t ∧
    json_ws c = false ∧ c ≠ ']' ∧ c ≠ '\x7d' := by
  have hch : ∀ c : Char, c ∈ ['n', 't', 'f', '"', '[', '\x7b', '-'] →
      json_ws c = false ∧ c ≠ ']' ∧ c ≠ '\x7d' := by decide
  cases v with
  | null => exact ⟨'n', _, rfl, hch 'n' (by decide)⟩
  | bool b =>
    cases b with
    | true => exact ⟨'t', _, rfl, hch 't' (by decide)⟩
    | false => exact ⟨'f', _, rfl, hch 'f' (by decide)⟩
  | num n =>
    by_cases hn : n < 0
    · refine ⟨'-', nat_repr (-n).toNat, ?_, hch '-' (by decide)⟩
      simp [json_dumps, int_repr, if_pos hn]
    · obtain ⟨hdig, hne, _⟩ := nat_repr_spec n.toNat
      obtain ⟨c, t, hct⟩ : ∃ c t, nat_repr n.toNat = c :: t := by
        cases hq : nat_repr n.toNat with
        | nil => exact absurd hq hne
        | cons a b => exact ⟨a, b, rfl⟩
      have hcd : c.isDigit = true := hdig c (by rw [hct]; exact List.mem_cons_self c t)
      obtain ⟨hws, _, _, _, _, _, _, _⟩ := digit_char_facts c hcd
      refine ⟨c, t, ?_, hws, digit_ne c ']' hcd (by decide),
        digit_ne c '\x7d' hcd (by decide)⟩
      simp [json_dumps, int_repr, if_neg hn, hct]
  | str s => exact ⟨'"', _, rfl, hch '"' (by decide)⟩
  | arr xs =>
    cases xs with
    | nil => exact ⟨'[', _, rfl, hch '[' (by decide)⟩
    | cons x xs2 => exact ⟨'[', _, rfl, hch '[' (by decide)⟩
  | obj kvs =>
    cases kvs with
    | nil => exact ⟨'\x7b', _, rfl, hch '\x7b' (by decide)⟩
    | cons k v r => exact ⟨'\x7b', _, rfl, hch '\x7b' (by decide)⟩

theorem parse_string_roundtrip2 (s x : List Char) :
    parse_string_body ((escape_string s ++ ['"']) ++ x) = some (s, x) := by
  rw [List.append_assoc]
  exact parse_string_roundtrip s x

theorem jfuel_pos (v : Json) : 1 ≤ jfuel v := by
  cases v <;> simp [jfuel] <;> omega

theorem parse_roundtrip : ∀ fuel : Nat,
    (∀ v rest, goodJson v = true → jfuel v ≤ fuel → num_stop rest = true →
      parse_value fuel (json_dumps v ++ rest) = some (v, rest)) ∧
    (∀ x xs rest, goodJson x = true → goodArr xs = true →
      1 + jfuel x + jfuelArr xs ≤ fuel →
      parse_elems fuel (json_dumps x ++ (dumps_elems xs ++ ']' :: rest))
        = some (.cons x xs, rest)) ∧
    (∀ k v kvs rest, goodJson v = true → goodMembers kvs = true →
      1 + jfuel v + jfuelObj kvs ≤ fuel →
      parse_members fuel (dumps_string k
          ++ (':' :: ' ' :: (json_dumps v
            ++ (dumps_members kvs ++ '\x7d' :: rest))))
        = some (objToPairs (.cons k v kvs), rest)) := by
  intro fuel
  induction fuel with
  | zero =>
    refine ⟨?_, ?_, ?_⟩
    · intro v rest _ hf _
      have := jfuel_pos v
      omega
    · intro x xs rest _ _ hf
      omega
    · intro k v kvs rest _ _ hf
      omega
  | succ fuel ih =>
    obtain ⟨ihP, ihQ, ihR⟩ := ih
    refine ⟨?_, ?_, ?_⟩
    · intro v rest hg hf hn
      cases v with
      | null => rfl
      | bool b => cases b <;> rfl
      | str s =>
        have hx : json_dumps (.str s) ++ rest
            = '"' :: (escape_string s ++ '"' :: rest) := by
          show ('"' :: (escape_string s ++ ['"'])) ++ rest = _
          simp
        rw [hx]
        have hred : parse_value (fuel+1) ('"' :: (escape_string s ++ '"' :: rest))
            = (match parse_string_body (escape_string s ++ '"' :: rest) with
               | none => none
               | some (s2, r) => some (.str s2, r)) := rfl
        rw [hred, parse_string_roundtrip]
      | num n =>
        by_cases hsign : n < 0
        · have hx : json_dumps (.num n) ++ rest
              = '-' :: (nat_repr (-n).toNat ++ rest) := by
            simp [json_dumps, int_repr, if_pos hsign]
          rw [hx]
          obtain ⟨hdig, hne, hval⟩ := nat_repr_spec (-n).toNat
          obtain ⟨htake, hdrop⟩ :=
            takeWhile_digits_append (nat_repr (-n).toNat) rest hdig hn
          have hred : parse_value (fuel+1) ('-' :: (nat_repr (-n).toNat ++ rest))
              = (if (nat_repr (-n).toNat ++ rest).takeWhile Char.isDigit = []
                 then none
                 else some (.num (-(Int.ofNat (digits_val
                     ((nat_repr (-n).toNat ++ rest).takeWhile Char.isDigit)))),
                   (nat_repr (-n).toNat ++ rest).dropWhile Char.isDigit)) := rfl
          rw [hred, htake, hdrop, if_neg hne, hval]
          have hv : -(Int.ofNat (-n).toNat) = n := by
            simp only [Int.ofNat_eq_natCast]
            omega
          rw [hv]
        · obtain ⟨hdig, hne, hval⟩ := nat_repr_spec n.toNat
          obtain ⟨c, t, hct⟩ : ∃ c t, nat_repr n.toNat = c :: t := by
            cases hq : nat_repr n.toNat with
            | nil => exact absurd hq hne
            | cons a b => exact ⟨a, b, rfl⟩
          have hx : json_dumps (.num n) ++ rest = (c :: t) ++ rest := by
            simp [json_dumps, int_repr, if_neg hsign, hct]
          rw [hx]
          have hcd : c.isDigit = true :=
            hdig c (by rw [hct]; exact List.mem_cons_self c t)
          obtain ⟨hws, h1, h2, h3, h4, h5, h6, h7⟩ := digit_char_facts c hcd
          obtain ⟨htake, hdrop⟩ :=
            takeWhile_digits_append (c :: t) rest (hct ▸ hdig) hn
          have hred : parse_value (fuel+1) ((c :: t) ++ rest)
              = (if c = 'n' then
                   match t ++ rest with
                   | 'u' :: 'l' :: 'l' :: r => some (.null, r)
                   | _ => none
                 else if c = 't' then
                   match t ++ rest with
                   | 'r' :: 'u' :: 'e' :: r => some (.bool true, r)
                   | _ => none
                 else if c = 'f' then
                   match t ++ rest with
                   | 'a' :: 'l' :: 's' :: 'e' :: r => some (.bool false, r)
                   | _ => none
                 else if c = '"' then
                   match parse_string_body (t ++ rest) with
                   | none => none
                   | some (s, r) => some (.str s, r)
                 else if c = '[' then
                   match skip_ws (t ++ rest) with
                   | [] => none
                   | c2 :: r2 =>
                     if c2 = ']' then some (.arr .nil, r2)
                     else
                       match parse_elems fuel (c2 :: r2) with
                       | none => none
                       | some (vs, r3) => some (.arr vs, r3)
                 else if c = '\x7b' then
                   match skip_ws (t ++ rest) with
                   | [] => none
                   | c2 :: r2 =>
                     if c2 = '\x7d' then some (.obj .nil, r2)
                     else
                       match parse_members fuel (c2 :: r2) with
                       | none => none
                       | some (kvs, r3) => some (.obj (build_dict kvs), r3)
                 else if c = '-' then
                   if (t ++ rest).takeWhile Char.isDigit = [] then none
                   else some (.num (-(Int.ofNat (digits_val
                       ((t ++ rest).takeWhile Char.isDigit)))),
                     (t ++ rest).dropWhile Char.isDigit)
                 else if c.isDigit then
                   some (.num (Int.ofNat (digits_val
                       (((c :: t) ++ rest).takeWhile Char.isDigit))),
                     ((c :: t) ++ rest).dropWhile Char.isDigit)
                 else none) := by
            conv_lhs => unfold parse_value
            rw [show ((c :: t) ++ rest : List Char) = c :: (t ++ rest) from rfl]
            rw [skip_ws_cons c _ hws]
          rw [hred, if_neg h1, if_neg h2, if_neg h3, if_neg h4, if_neg h5,
            if_neg h6, if_neg h7, if_pos hcd, htake, hdrop]
          rw [← hct, hval]
          have hv : Int.ofNat n.toNat = n := by
            simp only [Int.ofNat_eq_natCast]
            omega
          rw [hv]
      | arr xs =>
        cases xs with
        | nil => rfl
        | cons x xs2 =>
          have hx : json_dumps (.arr (.cons x xs2)) ++ rest
              = '[' :: (json_dumps x ++ (dumps_elems xs2 ++ ']' :: rest)) := by
            show ('[' :: json_dumps x ++ dumps_elems xs2 ++ [']']) ++ rest = _
            simp
          rw [hx]
          obtain ⟨c, t, hct, hws, hnb, _⟩ := json_dumps_head x
          have hred : parse_value (fuel+1)
              ('[' :: (json_dumps x ++ (dumps_elems xs2 ++ ']' :: rest)))
              = (match skip_ws (json_dumps x ++ (dumps_elems xs2 ++ ']' :: rest)) with
                 | [] => none
                 | c2 :: r2 =>
                   if c2 = ']' then some (Json.arr .nil, r2)
                   else
                     match parse_elems fuel (c2 :: r2) with
                     | none => none
                     | some (vs, r3) => some (Json.arr vs, r3)) := rfl
          rw [hred]
          rw [show json_dumps x ++ (dumps_elems xs2 ++ ']' :: rest)
              = c :: (t ++ (dumps_elems xs2 ++ ']' :: rest)) from by rw [hct]; rfl]
          rw [skip_ws_cons c _ hws]
          have hmred : (match c :: (t ++ (dumps_elems xs2 ++ ']' :: rest)) with
                 | [] => none
                 | c2 :: r2 =>
                   if c2 = ']' then some (Json.arr .nil, r2)
                   else
                     match parse_elems fuel (c2 :: r2) with
                     | none => none
                     | some (vs, r3) => some (Json.arr vs, r3))
              = (if c = ']' then
                   some (Json.arr .nil, t ++ (dumps_elems xs2 ++ ']' :: rest))
                 else
                   match parse_elems fuel
                       (c :: (t ++ (dumps_elems xs2 ++ ']' :: rest))) with
                   | none => none
                   | some (vs, r3) => some (Json.arr vs, r3)) := rfl
          rw [hmred, if_neg hnb]
          rw [show (c :: (t ++ (dumps_elems xs2 ++ ']' :: rest)) : List Char)
              = json_dumps x ++ (dumps_elems xs2 ++ ']' :: rest) from by rw [hct]; rfl]
          have hg2 : (goodJson x && goodArr xs2) = true := hg
          rw [Bool.and_eq_true] at hg2
          have hjf : jfuel (Json.arr (.cons x xs2)) = 1 + (1 + jfuel x + jfuelArr xs2) := rfl
          rw [hjf] at hf
          rw [ihQ x xs2 rest hg2.1 hg2.2 (by omega)]
      | obj kvs =>
        cases kvs with
        | nil => rfl
        | cons k v kvs2 =>
          have hx : json_dumps (.obj (.cons k v kvs2)) ++ rest
              = '\x7b' :: (dumps_string k ++ (':' :: ' ' :: json_dumps v
                  ++ (dumps_members kvs2 ++ '\x7d' :: rest))) := by
            show ('\x7b' :: dumps_string k ++ ':' :: ' ' :: json_dumps v
                ++ dumps_members kvs2 ++ ['\x7d']) ++ rest = _
            simp
          rw [hx]
          have hred : parse_value (fuel+1)
              ('\x7b' :: (dumps_string k ++ (':' :: ' ' :: json_dumps v
                  ++ (dumps_members kvs2 ++ '\x7d' :: rest))))
              = (match skip_ws (dumps_string k ++ (':' :: ' ' :: json_dumps v
                    ++ (dumps_members kvs2 ++ '\x7d' :: rest))) with
                 | [] => none
                 | c2 :: r2 =>
                   if c2 = '\x7d' then some (Json.obj .nil, r2)
                   else
                     match parse_members fuel (c2 :: r2) with
                     | none => none
                     | some (kvs3, r3) => some (Json.obj (build_dict kvs3), r3)) := rfl
          rw [hred]
          have hq : dumps_string k ++ (':' :: ' ' :: json_dumps v
                ++ (dumps_members kvs2 ++ '\x7d' :: rest))
              = '"' :: ((escape_string k ++ ['"']) ++ (':' :: ' ' :: json_dumps v
                ++ (dumps_members kvs2 ++ '\x7d' :: rest))) := rfl
          rw [hq, skip_ws_cons '"' _ (by decide)]
          have hmred : (match ('"' :: ((escape_string k ++ ['"'])
                   ++ (':' :: ' ' :: json_dumps v
                     ++ (dumps_members kvs2 ++ '\x7d' :: rest))) : List Char) with
                 | [] => none
                 | c2 :: r2 =>
                   if c2 = '\x7d' then some (Json.obj .nil, r2)
                   else
                     match parse_members fuel (c2 :: r2) with
                     | none => none
                     | some (kvs3, r3) => some (Json.obj (build_dict kvs3), r3))
              = (match parse_members fuel
                    ('"' :: ((escape_string k ++ ['"'])
                      ++ (':' :: ' ' :: json_dumps v
                        ++ (dumps_members kvs2 ++ '\x7d' :: rest)))) with
                 | none => none
                 | some (kvs3, r3) => some (Json.obj (build_dict kvs3), r3)) := rfl
          rw [hmred]
          have hg2 : (keys_nodup (JsonObj.cons k v kvs2)
              && goodMembers (JsonObj.cons k v kvs2)) = true := hg
          rw [Bool.and_eq_true] at hg2
          have hgm : (goodJson v && goodMembers kvs2) = true := hg2.2
          rw [Bool.and_eq_true] at hgm
          have hjf : jfuel (Json.obj (.cons k v kvs2))
              = 1 + (1 + jfuel v + jfuelObj kvs2) := rfl
          rw [hjf] at hf
          have hr : parse_members fuel
              ('"' :: (escape_string k ++ ['"']
                ++ (':' :: ' ' :: json_dumps v
                  ++ (dumps_members kvs2 ++ '\x7d' :: rest))))
              = some (objToPairs (JsonObj.cons k v kvs2), rest) :=
            ihR k v kvs2 rest hgm.1 hgm.2 (by omega)
          rw [hr]
          show some (Json.obj (build_dict (objToPairs (JsonObj.cons k v kvs2))), rest)
              = some (Json.obj (JsonObj.cons k v kvs2), rest)
          rw [build_dict_id (JsonObj.cons k v kvs2) hg2.1]
    · intro x xs rest hgx hgxs hf
      have hnum : num_stop (dumps_elems xs ++ ']' :: rest) = true := by
        cases xs with
        | nil => rfl
        | cons y ys => rfl
      have hred : parse_elems (fuel+1)
            (json_dumps x ++ (dumps_elems xs ++ ']' :: rest))
          = (match parse_value fuel
                (json_dumps x ++ (dumps_elems xs ++ ']' :: rest)) with
             | none => none
             | some (v, r) =>
               match skip_ws r with
               | ',' :: r2 =>
                 match parse_elems fuel r2 with
                 | none => none
                 | some (vs, r3) => some (JsonArr.cons v vs, r3)
               | ']' :: r2 => some (JsonArr.cons v .nil, r2)
               | _ => none) := rfl
      rw [hred, ihP x (dumps_elems xs ++ ']' :: rest) hgx (by omega) hnum]
      cases xs with
      | nil => rfl
      | cons y ys =>
        have hz : dumps_elems (JsonArr.cons y ys) ++ ']' :: rest
            = ',' :: ' ' :: (json_dumps y ++ (dumps_elems ys ++ ']' :: rest)) := by
          show ((',' :: ' ' :: json_dumps y) ++ dumps_elems ys) ++ ']' :: rest = _
          simp
        rw [hz]
        show (match parse_elems fuel
              (' ' :: (json_dumps y ++ (dumps_elems ys ++ ']' :: rest))) with
              | none => none
              | some (vs, r3) => some (JsonArr.cons x vs, r3))
            = some (JsonArr.cons x (JsonArr.cons y ys), rest)
        rw [parse_elems_space]
        have hg2 : (goodJson y && goodArr ys) = true := hgxs
        rw [Bool.and_eq_true] at hg2
        have hjf : jfuelArr (JsonArr.cons y ys) = 1 + jfuel y + jfuelArr ys := rfl
        rw [hjf] at hf
        rw [ihQ y ys rest hg2.1 hg2.2 (by omega)]
    · intro k v kvs rest hgv hgkvs hf
      have hred : parse_members (fuel+1) (dumps_string k
            ++ (':' :: ' ' :: (json_dumps v
              ++ (dumps_members kvs ++ '\x7d' :: rest))))
          = (match parse_string_body ((escape_string k ++ ['"'])
                ++ (':' :: ' ' :: (json_dumps v
                  ++ (dumps_members kvs ++ '\x7d' :: rest)))) with
             | none => none
             | some (k2, r1) =>
               match skip_ws r1 with
               | ':' :: r2 =>
                 match parse_value fuel r2 with
                 | none => none
                 | some (v2, r3) =>
                   match skip_ws r3 with
                   | ',' :: r4 =>
                     match parse_members fuel r4 with
                     | none => none
                     | some (kvs2, r5) => some ((k2, v2) :: kvs2, r5)
                   | '\x7d' :: r4 => some ([(k2, v2)], r4)
                   | _ => none
               | _ => none) := rfl
      rw [hred, parse_string_roundtrip2]
      show (match parse_value fuel
            (' ' :: (json_dumps v ++ (dumps_members kvs ++ '\x7d' :: rest))) with
            | none => none
            | some (v2, r3) =>
              match skip_ws r3 with
              | ',' :: r4 =>
                match parse_members fuel r4 with
                | none => none
                | some (kvs2, r5) => some ((k, v2) :: kvs2, r5)
              | '\x7d' :: r4 => some ([(k, v2)], r4)
              | _ => none)
          = some (objToPairs (JsonObj.cons k v kvs), rest)
      rw [parse_value_space]
      have hnum : num_stop (dumps_members kvs ++ '\x7d' :: rest) = true := by
        cases kvs with
        | nil => rfl
        | cons k2 v2 kvs2 => rfl
      rw [ihP v (dumps_members kvs ++ '\x7d' :: rest) hgv (by omega) hnum]
      cases kvs with
      | nil => rfl
      | cons k2 v2 kvs2 =>
        have hz : dumps_members (JsonObj.cons k2 v2 kvs2) ++ '\x7d' :: rest
            = ',' :: ' ' :: (dumps_string k2
              ++ (':' :: ' ' :: (json_dumps v2
                ++ (dumps_members kvs2 ++ '\x7d' :: rest)))) := by
          show (((',' :: ' ' :: dumps_string k2) ++ (':' :: ' ' :: json_dumps v2))
              ++ dumps_members kvs2) ++ '\x7d' :: rest = _
          simp
        rw [hz]
        show (match parse_members fuel (' ' :: (dumps_string k2
              ++ (':' :: ' ' :: (json_dumps v2
                ++ (dumps_members kvs2 ++ '\x7d' :: rest))))) with
              | none => none
              | some (kvs3, r5) => some ((k, v) :: kvs3, r5))
            = some (objToPairs (JsonObj.cons k v (JsonObj.cons k2 v2 kvs2)), rest)
        rw [parse_members_space]
        have hg2 : (goodJson v2 && goodMembers kvs2) = true := hgkvs
        rw [Bool.and_eq_true] at hg2
        have hjf : jfuelObj (JsonObj.cons k2 v2 kvs2)
            = 1 + jfuel v2 + jfuelObj kvs2 := rfl
        rw [hjf] at hf
        rw [ihR k2 v2 kvs2 rest hg2.1 hg2.2 (by omega)]
        rfl

theorem range_succ2 (n : Nat) : List.range (n + 1) = List.range n ++ [n] := by
  rw [List.range_add]
  rw [show List.range 1 = [0] from rfl]
  simp

theorem filter_range_two (P : Nat → Bool) (j n : Nat) (h0 : P 0 = true)
    (hj : P j = true) (hjpos : 0 < j) (hlt : j < n)
    (hmid : ∀ i, 0 < i → i < j → P i = false) :
    ∃ tail, (List.range n).filter P = 0 :: j :: tail := by
  obtain ⟨m, rfl⟩ : ∃ m, n = (j + 1) + m := ⟨n - (j+1), by omega⟩
  obtain ⟨jm, rfl⟩ : ∃ jm, j = jm + 1 := ⟨j - 1, by omega⟩
  have hnil : (List.range jm).filter (P ∘ Nat.succ) = [] := by
    rw [List.filter_eq_nil_iff]
    intro a ha
    have haj : a < jm := List.mem_range.mp ha
    simp [Function.comp, hmid (a+1) (by omega) (by omega)]
  refine ⟨?tail, ?_⟩
  case tail => exact ((List.range m).map (jm + 1 + 1 + ·)).filter P
  have e1 : List.range (jm + 1 + 1 + m)
      = List.range (jm + 1 + 1) ++ (List.range m).map (jm + 1 + 1 + ·) :=
    List.range_add _ _
  have e3 : List.range (jm + 1) = 0 :: (List.range jm).map Nat.succ :=
    List.range_succ_eq_map jm
  rw [e1, List.filter_append, range_succ2, List.filter_append, e3,
    List.filter_cons, h0, if_pos rfl, List.filter_map, hnil, List.filter_cons, hj,
    if_pos rfl]
  simp

theorem occurs_false_of_findall_nil (s : List Char)
    (h : findall three_dashes s = []) :
    ∀ i, occurs_at three_dashes s i = false := by
  intro i
  by_cases hle : i ≤ s.length
  · have hmem : i ∈ List.range (s.length + 1) := List.mem_range.mpr (by omega)
    have h2 := List.filter_eq_nil_iff.mp h i hmem
    simpa using h2
  · have hdrop : s.drop i = [] := List.drop_eq_nil_of_le (by omega)
    unfold occurs_at
    rw [hdrop]
    rfl

theorem take3_with_nl : ∀ (A r : List Char), A.length ≤ 2 →
    (((A ++ '\n' :: r).take 3 : List Char) == three_dashes) = false
  | [], r, _ => by
    refine beq_eq_false_iff_ne.mpr ?_
    intro h
    simp [three_dashes] at h
  | [a], r, _ => by
    refine beq_eq_false_iff_ne.mpr ?_
    intro h
    simp [three_dashes] at h
  | [a, b], r, _ => by
    refine beq_eq_false_iff_ne.mpr ?_
    intro h
    simp [three_dashes] at h
  | a :: b :: c :: t, r, h => by
    simp at h

mutual

theorem jfuel_le : ∀ v : Json, jfuel v ≤ (json_dumps v).length
  | .null => by simp [jfuel, json_dumps]
  | .bool true => by simp [jfuel, json_dumps]
  | .bool false => by simp [jfuel, json_dumps]
  | .num n => by
    have h1 : jfuel (.num n) = 1 := rfl
    rw [h1]
    unfold json_dumps int_repr
    by_cases hn : n < 0
    · rw [if_pos hn]
      simp
    · rw [if_neg hn]
      have := (nat_repr_spec n.toNat).2.1
      have hpos : 0 < (nat_repr n.toNat).length := List.length_pos.mpr this
      omega
  | .str s => by
    have h1 : jfuel (.str s) = 1 := rfl
    rw [h1]
    show 1 ≤ (dumps_string s).length
    simp [dumps_string]
  | .arr .nil => by simp [jfuel, jfuelArr, json_dumps]
  | .arr (.cons x xs) => by
    have h1 : jfuel (.arr (.cons x xs)) = 1 + (1 + jfuel x + jfuelArr xs) := rfl
    have h2 : json_dumps (.arr (.cons x xs))
        = '[' :: json_dumps x ++ dumps_elems xs ++ [']'] := rfl
    have h3 := jfuel_le x
    have h4 := jfuelArr_le xs
    rw [h1, h2]
    simp [List.length_append]
    omega
  | .obj .nil => by simp [jfuel, jfuelObj, json_dumps]
  | .obj (.cons k v kvs) => by
    have h1 : jfuel (.obj (.cons k v kvs)) = 1 + (1 + jfuel v + jfuelObj kvs) := rfl
    have h2 : json_dumps (.obj (.cons k v kvs))
        = '\x7b' :: dumps_string k ++ ':' :: ' ' :: json_dumps v
            ++ dumps_members kvs ++ ['\x7d'] := rfl
    have h3 := jfuel_le v
    have h4 := jfuelObj_le kvs
    rw [h1, h2]
    simp [List.length_append]
    omega

theorem jfuelArr_le : ∀ xs : JsonArr, jfuelArr xs ≤ (dumps_elems xs).length
  | .nil => by simp [jfuelArr, dumps_elems]
  | .cons x xs => by
    have h1 : jfuelArr (.cons x xs) = 1 + jfuel x + jfuelArr xs := rfl
    have h2 : dumps_elems (.cons x xs)
        = ',' :: ' ' :: json_dumps x ++ dumps_elems xs := rfl
    have h3 := jfuel_le x
    have h4 := jfuelArr_le xs
    rw [h1, h2]
    simp [List.length_append]
    omega

theorem jfuelObj_le : ∀ kvs : JsonObj, jfuelObj kvs ≤ (dumps_members kvs).length
  | .nil => by simp [jfuelObj, dumps_members]
  | .cons k v kvs => by
    have h1 : jfuelObj (.cons k v kvs) = 1 + jfuel v + jfuelObj kvs := rfl
    have h2 : dumps_members (.cons k v kvs)
        = ',' :: ' ' :: dumps_string k ++ ':' :: ' ' :: json_dumps v
            ++ dumps_members kvs := rfl
    have h3 := jfuel_le v
    have h4 := jfuelObj_le kvs
    rw [h1, h2]
    simp [List.length_append]
    omega

end

theorem json_loads_pad (v : Json) (hg : goodJson v = true) :
    json_loads ('\n' :: (json_dumps v ++ ['\n'])) = some v := by
  obtain ⟨c, t, hct, hws, _, _⟩ := json_dumps_head v
  have hskip : skip_ws ('\n' :: (json_dumps v ++ ['\n'])) = json_dumps v ++ ['\n'] := by
    show skip_ws (json_dumps v ++ ['\n']) = json_dumps v ++ ['\n']
    conv_lhs => rw [hct]
    rw [show ((c :: t : List Char) ++ ['\n']) = c :: (t ++ ['\n']) from rfl]
    rw [skip_ws_cons c _ hws]
    rw [hct]
    rfl
  have h1 : json_loads ('\n' :: (json_dumps v ++ ['\n']))
      = (match parse_value
            ((skip_ws ('\n' :: (json_dumps v ++ ['\n']))).length + 1)
            (skip_ws ('\n' :: (json_dumps v ++ ['\n']))) with
         | some (v2, r) => if skip_ws r = [] then some v2 else none
         | none => none) := rfl
  rw [h1, hskip]
  have hf : jfuel v ≤ (json_dumps v ++ ['\n']).length + 1 := by
    have := jfuel_le v
    simp [List.length_append]
    omega
  rw [(parse_roundtrip ((json_dumps v ++ ['\n']).length + 1)).1 v ['\n'] hg hf rfl]
  rfl

theorem hugo_roundtrip_core (fm : JsonObj) (content : List Char)
    (hg : goodJson (.obj fm) = true)
    (hD : findall three_dashes (json_dumps (.obj fm)) = []) :
    hugo_markdown_to_json (create_markdown_str (.obj fm) content)
      = some (some (.obj fm), content) := by
  have hocc := occurs_false_of_findall_nil _ hD
  have hmd : create_markdown_str (.obj fm) content
      = '-' :: '-' :: '-' :: '\n' :: (json_dumps (.obj fm)
        ++ ('\n' :: '-' :: '-' :: '-' :: '\n'
          :: (open_marker ++ (content ++ close_marker)))) := by
    simp [create_markdown_str, three_dashes, List.append_assoc]
  rw [hmd]
  set D : List Char := json_dumps (Json.obj fm) with hDdef
  set X : List Char := '\n' :: '-' :: '-' :: '-' :: '\n'
      :: (open_marker ++ (content ++ close_marker)) with hXdef
  have hlenX : X.length = content.length + 37 := by
    rw [hXdef]
    simp [open_marker, close_marker, List.length_append]
  have hlenM : ('-' :: '-' :: '-' :: '\n' :: (D ++ X) : List Char).length
      = D.length + content.length + 41 := by
    simp [List.length_append, hlenX]
    omega
  have hA : occurs_at three_dashes ('-' :: '-' :: '-' :: '\n' :: (D ++ X)) 0 = true := rfl
  have hmid : ∀ i, 0 < i → i < D.length + 5 →
      occurs_at three_dashes ('-' :: '-' :: '-' :: '\n' :: (D ++ X)) i = false := by
    intro i h1 h2
    match i, h1, h2 with
    | 1, _, _ => rfl
    | 2, _, _ => rfl
    | 3, _, _ => rfl
    | (k+4), _, h2 =>
      have hk : k ≤ D.length := by omega
      have hdrop : ('-' :: '-' :: '-' :: '\n' :: (D ++ X) : List Char).drop (k+4)
          = (D ++ X).drop k := rfl
      unfold occurs_at
      rw [hdrop, List.drop_append_eq_append_drop,
        show k - D.length = 0 from by omega, List.drop_zero]
      by_cases hk3 : k + 3 ≤ D.length
      · rw [List.take_append_of_le_length
          (by simp [three_dashes, List.length_drop]; omega)]
        exact hocc k
      · rw [hXdef]
        exact take3_with_nl (D.drop k) _ (by simp [List.length_drop]; omega)
  have hB : occurs_at three_dashes ('-' :: '-' :: '-' :: '\n' :: (D ++ X))
      (D.length + 5) = true := by
    unfold occurs_at
    have hdrop : ('-' :: '-' :: '-' :: '\n' :: (D ++ X) : List Char).drop (D.length + 5)
        = (D ++ X).drop (D.length + 1) := rfl
    rw [hdrop, List.drop_append_eq_append_drop,
      List.drop_eq_nil_of_le (by omega),
      show D.length + 1 - D.length = 1 from by omega, List.nil_append, hXdef]
    rfl
  have hfind : ∃ tail, findall three_dashes ('-' :: '-' :: '-' :: '\n' :: (D ++ X))
      = 0 :: (D.length + 5) :: tail := by
    unfold findall
    exact filter_range_two _ (D.length + 5) _ hA hB (by omega)
      (by rw [hlenM]; omega) hmid
  obtain ⟨tail, htail⟩ := hfind
  have hfront : (('-' :: '-' :: '-' :: '\n' :: (D ++ X) : List Char).take
        (D.length + 5)).drop (0 + 3)
      = '\n' :: (D ++ ['\n']) := by
    have h1 : ('-' :: '-' :: '-' :: '\n' :: (D ++ X) : List Char).take (D.length + 5)
        = '-' :: '-' :: '-' :: '\n' :: ((D ++ X).take (D.length + 1)) := rfl
    rw [h1, List.take_append_eq_append_take, List.take_of_length_le (by omega),
      show D.length + 1 - D.length = 1 from by omega, hXdef]
    rfl
  have hhtml : (('-' :: '-' :: '-' :: '\n' :: (D ++ X) : List Char).take
        (('-' :: '-' :: '-' :: '\n' :: (D ++ X) : List Char).length - 17)).drop
        (D.length + 5 + 19)
      = content := by
    rw [hlenM,
      show D.length + content.length + 41 - 17
        = D.length + (content.length + 24) from by omega,
      show D.length + 5 + 19 = D.length + 24 from by omega]
    have h1 : ('-' :: '-' :: '-' :: '\n' :: (D ++ X) : List Char).take
          (D.length + (content.length + 24))
        = '-' :: '-' :: '-' :: '\n' :: ((D ++ X).take (D.length + (content.length + 20))) := rfl
    rw [h1]
    have h2 : ('-' :: '-' :: '-' :: '\n' :: ((D ++ X).take
          (D.length + (content.length + 20))) : List Char).drop (D.length + 24)
        = ((D ++ X).take (D.length + (content.length + 20))).drop (D.length + 20) := rfl
    rw [h2, List.take_append_eq_append_take, List.take_of_length_le (by omega),
      show D.length + (content.length + 20) - D.length = content.length + 20 from by omega,
      List.drop_append_eq_append_drop, List.drop_eq_nil_of_le (by omega),
      show D.length + 20 - D.length = 20 from by omega, List.nil_append, hXdef]
    have h3 : (('\n' :: '-' :: '-' :: '-' :: '\n'
          :: (open_marker ++ (content ++ close_marker)) : List Char)).take
          (content.length + 20)
        = '\n' :: '-' :: '-' :: '-' :: '\n'
          :: ((open_marker ++ (content ++ close_marker)).take (content.length + 15)) := rfl
    rw [h3]
    have h4 : (('\n' :: '-' :: '-' :: '-' :: '\n'
          :: ((open_marker ++ (content ++ close_marker)).take (content.length + 15))
          : List Char)).drop 20
        = (content ++ close_marker).take content.length := rfl
    rw [h4, List.take_append_of_le_length (by omega),
      List.take_of_length_le (by omega)]
  have hred : hugo_markdown_to_json ('-' :: '-' :: '-' :: '\n' :: (D ++ X))
      = (match findall three_dashes ('-' :: '-' :: '-' :: '\n' :: (D ++ X)) with
         | i0 :: i1 :: _ =>
           some ((match json_loads ((('-' :: '-' :: '-' :: '\n' :: (D ++ X)
                    : List Char).take i1).drop (i0 + 3)) with
                  | some (.obj kvs) => some (Json.obj kvs)
                  | _ => none),
             (('-' :: '-' :: '-' :: '\n' :: (D ++ X) : List Char).take
                 (('-' :: '-' :: '-' :: '\n' :: (D ++ X) : List Char).length - 17)).drop
                 (i1 + 19))
         | _ => none) := rfl
  rw [hred, htail]
  show some ((match json_loads ((('-' :: '-' :: '-' :: '\n' :: (D ++ X)
           : List Char).take (D.length + 5)).drop (0 + 3)) with
         | some (.obj kvs) => some (Json.obj kvs)
         | _ => none),
      (('-' :: '-' :: '-' :: '\n' :: (D ++ X) : List Char).take
          (('-' :: '-' :: '-' :: '\n' :: (D ++ X) : List Char).length - 17)).drop
          (D.length + 5 + 19))
    = some (some (Json.obj fm), content)
  rw [hfront, hhtml, hDdef, json_loads_pad (Json.obj fm) hg]


/-- C7 (amended): writing a record with `create_markdown_str` and
`write_markdown` and reading it back with `read_hugo_markdown` (which
parses via `hugo_markdown_to_json`) returns the original frontmatter
object (hence metadata deep-equal to it) and exactly the original
content with the fixed wrapper markers stripped — provided the write and
the read-back succeed, every object in the frontmatter has distinct keys
(true of any Python dict), and the serialised frontmatter contains no
occurrence of the delimiter `'---'`.  Without the last proviso the claim
is false, see the counterexample. -/
theorem markdown_write_read_roundtrip (o : Oracles) (fs : Fs) (idn : List Char)
    (fm : JsonObj) (content : List Char)
    (hw : o.write (file_from_id idn) = .ok)
    (hr : o.readOk (file_from_id idn) = true)
    (hg : goodJson (.obj fm) = true)
    (hD : findall three_dashes (json_dumps (.obj fm)) = []) :
    read_hugo_markdown o.readOk (write_markdown o fs idn (.obj fm) content) idn
      = some (some (.obj fm), content) := by
  unfold write_markdown
  rw [hw]
  unfold read_hugo_markdown
  rw [hr]
  simp only [if_true]
  rw [fs_get_set_self]
  exact hugo_roundtrip_core fm content hg hD

/-- C7 witness: a concrete record round-trips through the store. -/
theorem markdown_write_read_roundtrip_witness :
    o_ok.write (file_from_id "9".toList) = .ok
    ∧ o_ok.readOk (file_from_id "9".toList) = true
    ∧ goodJson (.obj fm_w) = true
    ∧ findall three_dashes (json_dumps (.obj fm_w)) = []
    ∧ read_hugo_markdown o_ok.readOk
        (write_markdown o_ok [] "9".toList (.obj fm_w) "hi".toList) "9".toList
      = some (some (.obj fm_w), "hi".toList) :=
  ⟨rfl, rfl, rfl, rfl,
    markdown_write_read_roundtrip o_ok [] "9".toList fm_w "hi".toList
      rfl rfl rfl rfl⟩

/-- C7 counterexample to the unamended claim: a frontmatter whose
serialisation contains `'---'` (here inside a string value) defeats the
delimiter search on read-back — the parsed metadata is `None` rather
than deep-equal to the original, and the returned content is a garbage
slice rather than the original empty content. -/
theorem markdown_roundtrip_counterexample :
    hugo_markdown_to_json (create_markdown_str fm_dashes [])
      = some (none, "e >\x7d\x7d\n".toList)
    ∧ hugo_markdown_to_json (create_markdown_str fm_dashes [])
      ≠ some (some fm_dashes, ([] : List Char)) := by
  refine ⟨rfl, ?_⟩
  intro h
  have hc : hugo_markdown_to_json (create_markdown_str fm_dashes [])
      = some (none, "e >\x7d\x7d\n".toList) := rfl
  rw [hc] at h
  simp at h
